import Mathlib

/-!
Verification development for the pyrsedis Redis client core.

The Rust sources are shallowly embedded here:

- byte buffers are modelled as List Nat (each element an octet value);
- Rust strings are modelled as List Char where character-level operations
  matter (error-kind classification) and as UTF-8 byte lists elsewhere;
- machine integers are modelled as Int with explicit i64 range checks
  mirroring the checked arithmetic of the source;
- fallible functions return Except.

The streaming RESP parser of src/resp/parser.rs recurses into container
elements.  Its recursion depth is bounded by a third of the buffer length
(every nesting level consumes at least a three-byte header before
recursing), so the embedding drives the recursion with a structural fuel
parameter fixed to length + 1 at the public entry points; the fuel can
never be exhausted on any input, and the structural recursion keeps every
definition computable by kernel reduction.
-/

set_option maxRecDepth 8000

namespace Pyrsedis

/-! ## Byte-level helpers shared by the parser (src/resp/parser.rs) -/

/-- ASCII digit test used by integer parsing. -/
def isDigitByte (b : Nat) : Bool := decide (48 ≤ b ∧ b ≤ 57)

/-- Position of the first carriage-return byte in a list, mirroring
the memchr call in find_crlf. -/
def memchrCr : List Nat → Option Nat
  | [] => none
  | b :: rest => if b = 13 then some 0 else (memchrCr rest).map (· + 1)

/-- Protocol-level parse failures of the streaming parser.  Each
constructor corresponds to one distinct error construction site in
src/resp/parser.rs; payloads record the data interpolated into the
message there. -/
inductive ProtErr where
  | expectedLf
  | emptyInteger
  | noDigits
  | invalidIntByte (b : Nat)
  | integerOverflow
  | invalidUtf8
  | bulkNotTerminated
  | nullNotTerminated
  | invalidBool (b : Nat)
  | boolNotTerminated
  | invalidDouble
  | invalidBigNumber
  | negativeBulkErrorLen
  | bulkErrorNotTerminated
  | negativeVerbatimLen
  | verbatimNotTerminated
  | verbatimNoEncoding
  | negativeMapCount
  | negativeSetCount
  | negativePushCount
  | emptyPush
  | pushKindNotString
  | invalidPushKind
  | negativeAttributeCount
  | unknownTypeByte (b : Nat)
  deriving DecidableEq, Repr

/-- Parser result errors: Incomplete (need more bytes) or a protocol
violation.  These are the only PyrsedisError variants the parser
produces. -/
inductive Err where
  | incomplete
  | protocol (e : ProtErr)
  deriving DecidableEq, Repr

/-- Find the next CRLF at or after offset, returning the index of the
carriage return, mirroring find_crlf. -/
def findCrlf (buf : List Nat) (off : Nat) : Except Err Nat :=
  match memchrCr (buf.drop off) with
  | some pos =>
    if off + pos + 1 < buf.length then
      if buf.getD (off + pos + 1) 0 = 10 then .ok (off + pos)
      else .error (.protocol .expectedLf)
    else .error .incomplete
  | none => .error .incomplete

/-- Read the line starting at offset up to CRLF; returns the line bytes
and the index just past the CRLF, mirroring read_line. -/
def readLine (buf : List Nat) (off : Nat) : Except Err (List Nat × Nat) :=
  match findCrlf buf off with
  | .ok cr => .ok ((buf.drop off).take (cr - off), cr + 2)
  | .error e => .error e

/-- Signed 64-bit lower bound. -/
def i64Min : Int := -(2 ^ 63)

/-- Signed 64-bit upper bound. -/
def i64Max : Int := 2 ^ 63 - 1

/-- Digit-accumulation loop of parse_int_from_bytes: accumulates in the
negative domain with checked multiply and subtract so that the most
negative i64 stays representable. -/
def intLoop : List Nat → Int → Except Err Int
  | [], n => .ok n
  | b :: bs, n =>
    if isDigitByte b then
      let m := n * 10
      if m < i64Min ∨ i64Max < m then .error (.protocol .integerOverflow)
      else
        let m2 := m - ((b : Int) - 48)
        if m2 < i64Min ∨ i64Max < m2 then .error (.protocol .integerOverflow)
        else intLoop bs m2
    else .error (.protocol (.invalidIntByte b))

/-- Two-complement wrap of an integer into the signed 64-bit range,
modelling release-mode overflow semantics of Rust arithmetic. -/
def wrap64 (x : Int) : Int := (x + 2 ^ 63) % 2 ^ 64 - 2 ^ 63

/-- Integer parser of src/resp/parser.rs (parse_int_from_bytes): optional
sign byte, nonempty digit run, negative-domain accumulation.  The final
negation for non-negative inputs is unchecked in the source, so it is
modelled with release-mode wrapping (for the one reachable case, an
input of exactly 2 to the 63rd, the source negates the most negative
i64: a panic in debug builds and a silent wrap in release builds). -/
def parseIntFromBytes (bytes : List Nat) : Except Err Int :=
  match bytes with
  | [] => .error (.protocol .emptyInteger)
  | b0 :: rest =>
    let negative := b0 = 45
    let digits := if b0 = 45 ∨ b0 = 43 then rest else bytes
    if digits.isEmpty then .error (.protocol .noDigits)
    else
      match intLoop digits 0 with
      | .ok n => .ok (if negative then n else wrap64 (-n))
      | .error e => .error e

/-- UTF-8 continuation byte test. -/
def isCont (b : Nat) : Bool := decide (128 ≤ b ∧ b ≤ 191)

/-- UTF-8 validity of a byte list, modelling str::from_utf8 acceptance
(RFC 3629 table, surrogates and overlong forms rejected). -/
def utf8Valid : List Nat → Bool
  | [] => true
  | b :: rest =>
    if b ≤ 127 then utf8Valid rest
    else if 194 ≤ b ∧ b ≤ 223 then
      match rest with
      | c1 :: r => isCont c1 && utf8Valid r
      | [] => false
    else if b = 224 then
      match rest with
      | c1 :: c2 :: r => decide (160 ≤ c1 ∧ c1 ≤ 191) && isCont c2 && utf8Valid r
      | _ => false
    else if 225 ≤ b ∧ b ≤ 236 then
      match rest with
      | c1 :: c2 :: r => isCont c1 && isCont c2 && utf8Valid r
      | _ => false
    else if b = 237 then
      match rest with
      | c1 :: c2 :: r => decide (128 ≤ c1 ∧ c1 ≤ 159) && isCont c2 && utf8Valid r
      | _ => false
    else if 238 ≤ b ∧ b ≤ 239 then
      match rest with
      | c1 :: c2 :: r => isCont c1 && isCont c2 && utf8Valid r
      | _ => false
    else if b = 240 then
      match rest with
      | c1 :: c2 :: c3 :: r =>
        decide (144 ≤ c1 ∧ c1 ≤ 191) && isCont c2 && isCont c3 && utf8Valid r
      | _ => false
    else if 241 ≤ b ∧ b ≤ 243 then
      match rest with
      | c1 :: c2 :: c3 :: r => isCont c1 && isCont c2 && isCont c3 && utf8Valid r
      | _ => false
    else if b = 244 then
      match rest with
      | c1 :: c2 :: c3 :: r =>
        decide (128 ≤ c1 ∧ c1 ≤ 143) && isCont c2 && isCont c3 && utf8Valid r
      | _ => false
    else false

/-! ## Rust f64 text acceptance (for the RESP double type)

The parser stores a double produced by str::parse::<f64>.  The embedding
keeps the accepted text itself (floating-point values are not modelled)
and models only which strings Rust accepts: optional sign, then either a
case-insensitive special word or a decimal mantissa with optional
exponent. -/

/-- Split a byte list at the first exponent marker (e or E). -/
def splitAtExp : List Nat → List Nat × Option (List Nat)
  | [] => ([], none)
  | b :: rest =>
    if b = 101 ∨ b = 69 then ([], some rest)
    else
      let (m, e) := splitAtExp rest
      (b :: m, e)

/-- All bytes are ASCII digits. -/
def allDigits (l : List Nat) : Bool := l.all isDigitByte

/-- Mantissa form: digits and at most one dot, with at least one digit. -/
def mantissaOk (m : List Nat) : Bool :=
  m.all (fun b => isDigitByte b || b = 46) &&
    decide (m.countP (fun b => decide (b = 46)) ≤ 1) &&
    decide (1 ≤ m.countP (fun b => isDigitByte b))

/-- Exponent form: optional sign then a nonempty digit run. -/
def expOk (e : List Nat) : Bool :=
  match e with
  | [] => false
  | b :: rest =>
    let digits := if b = 43 ∨ b = 45 then rest else e
    !digits.isEmpty && allDigits digits

/-- Lowercase an ASCII byte. -/
def asciiLower (b : Nat) : Nat := if 65 ≤ b ∧ b ≤ 90 then b + 32 else b

/-- Which byte strings Rust f64 from_str accepts. -/
def f64StrAccepts (s : List Nat) : Bool :=
  match s with
  | [] => false
  | b :: rest =>
    let body := if b = 43 ∨ b = 45 then rest else s
    let low := body.map asciiLower
    if low = [105, 110, 102] ∨ low = [105, 110, 102, 105, 110, 105, 116, 121] ∨
        low = [110, 97, 110] then true
    else
      match splitAtExp body with
      | (m, none) => mantissaOk m
      | (m, some e) => mantissaOk m && expOk e

/-! ## RESP value tree (src/resp/types.rs)

BulkString keeps raw bytes; textual variants keep the UTF-8 validated
bytes of the Rust String; Double keeps the accepted source text. -/

/-- RESP value tree mirrored from the RespValue enum. -/
inductive RespValue where
  | simpleString (s : List Nat)
  | respError (s : List Nat)
  | integer (i : Int)
  | bulkString (b : List Nat)
  | array (items : List RespValue)
  | null
  | boolean (b : Bool)
  | double (text : List Nat)
  | bigNumber (s : List Nat)
  | bulkError (s : List Nat)
  | verbatimString (encoding : List Nat) (data : List Nat)
  | map (pairs : List (RespValue × RespValue))
  | set (items : List RespValue)
  | push (kind : List Nat) (data : List RespValue)
  | attribute (data : RespValue) (attributes : List (RespValue × RespValue))

/-! ## Streaming parser (src/resp/parser.rs, parse and the per-type
parsers)

Each per-type parser below mirrors its Rust counterpart; container
parsers take the recursive element parser as an explicit argument.  The
suffix passed to children is buf.drop next, matching buf.slice(next..)
in the source. -/

/-- Parser for a simple string line, mirroring parse_simple_string.  The
OK, PONG and QUEUED fast paths of the source build the same string as
the general UTF-8 path, so acceptance is merged here. -/
def parseSimpleStringM (buf : List Nat) : Except Err (RespValue × Nat) :=
  match readLine buf 1 with
  | .error e => .error e
  | .ok (line, next) =>
    if line = [79, 75] ∨ line = [80, 79, 78, 71] ∨ line = [81, 85, 69, 85, 69, 68] then
      .ok (.simpleString line, next)
    else if utf8Valid line then .ok (.simpleString line, next)
    else .error (.protocol .invalidUtf8)

/-- Parser for a simple error line, mirroring parse_simple_error. -/
def parseSimpleErrorM (buf : List Nat) : Except Err (RespValue × Nat) :=
  match readLine buf 1 with
  | .error e => .error e
  | .ok (line, next) =>
    if utf8Valid line then .ok (.respError line, next)
    else .error (.protocol .invalidUtf8)

/-- Parser for an integer line, mirroring parse_integer. -/
def parseIntegerM (buf : List Nat) : Except Err (RespValue × Nat) :=
  match readLine buf 1 with
  | .error e => .error e
  | .ok (line, next) =>
    match parseIntFromBytes line with
    | .error e => .error e
    | .ok i => .ok (.integer i, next)

/-- Parser for a bulk string, mirroring parse_bulk_string: negative
length is the RESP2 null, otherwise the length-prefixed payload must be
present and CRLF terminated. -/
def parseBulkStringM (buf : List Nat) : Except Err (RespValue × Nat) :=
  match readLine buf 1 with
  | .error e => .error e
  | .ok (line, next) =>
    match parseIntFromBytes line with
    | .error e => .error e
    | .ok len =>
      if len < 0 then .ok (.null, next)
      else
        let l := len.toNat
        let dataEnd := next + l
        if buf.length < dataEnd + 2 then .error .incomplete
        else if buf.getD dataEnd 0 = 13 ∧ buf.getD (dataEnd + 1) 0 = 10 then
          .ok (.bulkString ((buf.drop next).take l), dataEnd + 2)
        else .error (.protocol .bulkNotTerminated)

/-- Parser for the RESP3 null, mirroring parse_null. -/
def parseNullM (buf : List Nat) : Except Err (RespValue × Nat) :=
  if buf.length < 3 then .error .incomplete
  else if buf.getD 1 0 = 13 ∧ buf.getD 2 0 = 10 then .ok (.null, 3)
  else .error (.protocol .nullNotTerminated)

/-- Parser for a boolean, mirroring parse_boolean. -/
def parseBooleanM (buf : List Nat) : Except Err (RespValue × Nat) :=
  if buf.length < 4 then .error .incomplete
  else
    let b1 := buf.getD 1 0
    if b1 = 116 ∨ b1 = 102 then
      if buf.getD 2 0 = 13 ∧ buf.getD 3 0 = 10 then .ok (.boolean (b1 = 116), 4)
      else .error (.protocol .boolNotTerminated)
    else .error (.protocol (.invalidBool b1))

/-- Parser for a double line, mirroring parse_double: UTF-8 check, the
inf, negative-inf and nan special cases, then Rust float acceptance.
The accepted text is kept as the value. -/
def parseDoubleM (buf : List Nat) : Except Err (RespValue × Nat) :=
  match readLine buf 1 with
  | .error e => .error e
  | .ok (line, next) =>
    if utf8Valid line then
      if line = [105, 110, 102] ∨ line = [45, 105, 110, 102] ∨ line = [110, 97, 110] then
        .ok (.double line, next)
      else if f64StrAccepts line then .ok (.double line, next)
      else .error (.protocol .invalidDouble)
    else .error (.protocol .invalidUtf8)

/-- Parser for a big number line, mirroring parse_big_number: UTF-8
check, then optional sign and a nonempty all-digit run. -/
def parseBigNumberM (buf : List Nat) : Except Err (RespValue × Nat) :=
  match readLine buf 1 with
  | .error e => .error e
  | .ok (line, next) =>
    if utf8Valid line then
      let digits :=
        match line with
        | b :: rest => if b = 43 ∨ b = 45 then rest else line
        | [] => ([] : List Nat)
      if digits.isEmpty || !allDigits digits then .error (.protocol .invalidBigNumber)
      else .ok (.bigNumber line, next)
    else .error (.protocol .invalidUtf8)

/-- Parser for a bulk error, mirroring parse_bulk_error. -/
def parseBulkErrorM (buf : List Nat) : Except Err (RespValue × Nat) :=
  match readLine buf 1 with
  | .error e => .error e
  | .ok (line, next) =>
    match parseIntFromBytes line with
    | .error e => .error e
    | .ok len =>
      if len < 0 then .error (.protocol .negativeBulkErrorLen)
      else
        let l := len.toNat
        if buf.length < next + l + 2 then .error .incomplete
        else if buf.getD (next + l) 0 = 13 ∧ buf.getD (next + l + 1) 0 = 10 then
          let content := (buf.drop next).take l
          if utf8Valid content then .ok (.bulkError content, next + l + 2)
          else .error (.protocol .invalidUtf8)
        else .error (.protocol .bulkErrorNotTerminated)

/-- Parser for a verbatim string, mirroring parse_verbatim_string: the
payload must be at least four bytes with a colon at index three,
splitting into a three-byte encoding tag and the data. -/
def parseVerbatimM (buf : List Nat) : Except Err (RespValue × Nat) :=
  match readLine buf 1 with
  | .error e => .error e
  | .ok (line, next) =>
    match parseIntFromBytes line with
    | .error e => .error e
    | .ok len =>
      if len < 0 then .error (.protocol .negativeVerbatimLen)
      else
        let l := len.toNat
        if buf.length < next + l + 2 then .error .incomplete
        else if buf.getD (next + l) 0 = 13 ∧ buf.getD (next + l + 1) 0 = 10 then
          let content := (buf.drop next).take l
          if l < 4 ∨ content.getD 3 0 ≠ 58 then .error (.protocol .verbatimNoEncoding)
          else
            let encoding := content.take 3
            let data := content.drop 4
            if utf8Valid encoding then
              if utf8Valid data then .ok (.verbatimString encoding data, next + l + 2)
              else .error (.protocol .invalidUtf8)
            else .error (.protocol .invalidUtf8)
        else .error (.protocol .verbatimNotTerminated)

/-- Sequential element loop shared by the container parsers: parse k
values with the given element parser, each from the suffix left by the
previous one, returning the values and the total bytes consumed. -/
def parseCnt (rec : List Nat → Except Err (RespValue × Nat)) :
    Nat → List Nat → Except Err (List RespValue × Nat)
  | 0, _ => .ok ([], 0)
  | k + 1, buf =>
    match rec buf with
    | .error e => .error e
    | .ok (v, n) =>
      match parseCnt rec k (buf.drop n) with
      | .error e => .error e
      | .ok (vs, m) => .ok (v :: vs, n + m)

/-- Key-value pair loop shared by map and attribute parsing. -/
def parsePrs (rec : List Nat → Except Err (RespValue × Nat)) :
    Nat → List Nat → Except Err (List (RespValue × RespValue) × Nat)
  | 0, _ => .ok ([], 0)
  | k + 1, buf =>
    match rec buf with
    | .error e => .error e
    | .ok (kv, n1) =>
      match rec (buf.drop n1) with
      | .error e => .error e
      | .ok (vv, n2) =>
        match parsePrs rec k (buf.drop (n1 + n2)) with
        | .error e => .error e
        | .ok (ps, m) => .ok ((kv, vv) :: ps, n1 + n2 + m)

/-- Parser for an array header and its elements, mirroring parse_array:
negative count is the RESP2 null array. -/
def parseArrayM (rec : List Nat → Except Err (RespValue × Nat)) (buf : List Nat) :
    Except Err (RespValue × Nat) :=
  match readLine buf 1 with
  | .error e => .error e
  | .ok (line, next) =>
    match parseIntFromBytes line with
    | .error e => .error e
    | .ok count =>
      if count < 0 then .ok (.null, next)
      else
        match parseCnt rec count.toNat (buf.drop next) with
        | .error e => .error e
        | .ok (elems, m) => .ok (.array elems, next + m)

/-- Parser for a map, mirroring parse_map. -/
def parseMapM (rec : List Nat → Except Err (RespValue × Nat)) (buf : List Nat) :
    Except Err (RespValue × Nat) :=
  match readLine buf 1 with
  | .error e => .error e
  | .ok (line, next) =>
    match parseIntFromBytes line with
    | .error e => .error e
    | .ok count =>
      if count < 0 then .error (.protocol .negativeMapCount)
      else
        match parsePrs rec count.toNat (buf.drop next) with
        | .error e => .error e
        | .ok (ps, m) => .ok (.map ps, next + m)

/-- Parser for a set, mirroring parse_set. -/
def parseSetM (rec : List Nat → Except Err (RespValue × Nat)) (buf : List Nat) :
    Except Err (RespValue × Nat) :=
  match readLine buf 1 with
  | .error e => .error e
  | .ok (line, next) =>
    match parseIntFromBytes line with
    | .error e => .error e
    | .ok count =>
      if count < 0 then .error (.protocol .negativeSetCount)
      else
        match parseCnt rec count.toNat (buf.drop next) with
        | .error e => .error e
        | .ok (elems, m) => .ok (.set elems, next + m)

/-- Parser for a push frame, mirroring parse_push: at least one element,
whose value must be a string and becomes the push kind. -/
def parsePushM (rec : List Nat → Except Err (RespValue × Nat)) (buf : List Nat) :
    Except Err (RespValue × Nat) :=
  match readLine buf 1 with
  | .error e => .error e
  | .ok (line, next) =>
    match parseIntFromBytes line with
    | .error e => .error e
    | .ok count =>
      if count < 0 then .error (.protocol .negativePushCount)
      else if count = 0 then .error (.protocol .emptyPush)
      else
        match rec (buf.drop next) with
        | .error e => .error e
        | .ok (kindVal, n1) =>
          match kindVal with
          | .simpleString s =>
            match parseCnt rec (count.toNat - 1) (buf.drop (next + n1)) with
            | .error e => .error e
            | .ok (data, m) => .ok (.push s data, next + n1 + m)
          | .bulkString bk =>
            if utf8Valid bk then
              match parseCnt rec (count.toNat - 1) (buf.drop (next + n1)) with
              | .error e => .error e
              | .ok (data, m) => .ok (.push bk data, next + n1 + m)
            else .error (.protocol .invalidPushKind)
          | _ => .error (.protocol .pushKindNotString)

/-- Parser for an attribute frame, mirroring parse_attribute: the pairs
are followed by one wrapped value. -/
def parseAttributeM (rec : List Nat → Except Err (RespValue × Nat)) (buf : List Nat) :
    Except Err (RespValue × Nat) :=
  match readLine buf 1 with
  | .error e => .error e
  | .ok (line, next) =>
    match parseIntFromBytes line with
    | .error e => .error e
    | .ok count =>
      if count < 0 then .error (.protocol .negativeAttributeCount)
      else
        match parsePrs rec count.toNat (buf.drop next) with
        | .error e => .error e
        | .ok (ps, m) =>
          match rec (buf.drop (next + m)) with
          | .error e => .error e
          | .ok (data, n2) => .ok (.attribute data ps, next + m + n2)

/-- One dispatch step of parse: the first byte selects the type parser,
with the given function used for container children. -/
def parseStep (rec : List Nat → Except Err (RespValue × Nat)) (buf : List Nat) :
    Except Err (RespValue × Nat) :=
  match buf with
  | [] => .error .incomplete
  | b :: _ =>
    if b = 43 then parseSimpleStringM buf
    else if b = 45 then parseSimpleErrorM buf
    else if b = 58 then parseIntegerM buf
    else if b = 36 then parseBulkStringM buf
    else if b = 42 then parseArrayM rec buf
    else if b = 95 then parseNullM buf
    else if b = 35 then parseBooleanM buf
    else if b = 44 then parseDoubleM buf
    else if b = 40 then parseBigNumberM buf
    else if b = 33 then parseBulkErrorM buf
    else if b = 61 then parseVerbatimM buf
    else if b = 37 then parseMapM rec buf
    else if b = 126 then parseSetM rec buf
    else if b = 62 then parsePushM rec buf
    else if b = 124 then parseAttributeM rec buf
    else .error (.protocol (.unknownTypeByte b))

/-- Fuel-indexed parser: one fuel unit per container nesting level. -/
def parseAux : Nat → List Nat → Except Err (RespValue × Nat)
  | 0 => fun _ => .error .incomplete
  | fuel + 1 => parseStep (parseAux fuel)

/-- The public parse operation of src/resp/parser.rs.  Nesting depth is
at most a third of the buffer length, so fuel length + 1 is never
exhausted and the definition agrees with the unbounded recursion of the
source on every input. -/
def parse (buf : List Nat) : Except Err (RespValue × Nat) :=
  parseAux (buf.length + 1) buf

/-- Bytes of an ASCII string literal, used to write concrete frames. -/
def strBytes (s : String) : List Nat := s.toList.map Char.toNat

/-! ## Frame length scan (src/resp/parser.rs, resp_frame_len)

Computes the byte length of the frontmost frame without building a
value tree.  Same fuel discipline as parse. -/

/-- Child-frame loop of resp_frame_len for arrays, sets and pushes:
sums the lengths of k child frames. -/
def frameCnt (recF : List Nat → Except Err Nat) : Nat → List Nat → Except Err Nat
  | 0, _ => .ok 0
  | k + 1, buf =>
    match recF buf with
    | .error e => .error e
    | .ok n =>
      match frameCnt recF k (buf.drop n) with
      | .error e => .error e
      | .ok m => .ok (n + m)

/-- Key-value loop of resp_frame_len for maps and attributes. -/
def framePrs (recF : List Nat → Except Err Nat) : Nat → List Nat → Except Err Nat
  | 0, _ => .ok 0
  | k + 1, buf =>
    match recF buf with
    | .error e => .error e
    | .ok n1 =>
      match recF (buf.drop n1) with
      | .error e => .error e
      | .ok n2 =>
        match framePrs recF k (buf.drop (n1 + n2)) with
        | .error e => .error e
        | .ok m => .ok (n1 + n2 + m)

/-- One dispatch step of resp_frame_len. -/
def frameStep (recF : List Nat → Except Err Nat) (buf : List Nat) : Except Err Nat :=
  match buf with
  | [] => .error .incomplete
  | b :: _ =>
    if b = 43 ∨ b = 45 ∨ b = 58 ∨ b = 44 ∨ b = 40 then
      match readLine buf 1 with
      | .error e => .error e
      | .ok (_, next) => .ok next
    else if b = 95 then
      if buf.length < 3 then .error .incomplete else .ok 3
    else if b = 35 then
      if buf.length < 4 then .error .incomplete else .ok 4
    else if b = 36 ∨ b = 33 ∨ b = 61 then
      match readLine buf 1 with
      | .error e => .error e
      | .ok (line, next) =>
        match parseIntFromBytes line with
        | .error e => .error e
        | .ok len =>
          if len < 0 then .ok next
          else
            let total := next + len.toNat + 2
            if buf.length < total then .error .incomplete else .ok total
    else if b = 42 ∨ b = 126 ∨ b = 62 then
      match readLine buf 1 with
      | .error e => .error e
      | .ok (line, next) =>
        match parseIntFromBytes line with
        | .error e => .error e
        | .ok count =>
          if count < 0 then .ok next
          else
            match frameCnt recF count.toNat (buf.drop next) with
            | .error e => .error e
            | .ok m => .ok (next + m)
    else if b = 37 then
      match readLine buf 1 with
      | .error e => .error e
      | .ok (line, next) =>
        match parseIntFromBytes line with
        | .error e => .error e
        | .ok count =>
          if count < 0 then .error (.protocol .negativeMapCount)
          else
            match framePrs recF count.toNat (buf.drop next) with
            | .error e => .error e
            | .ok m => .ok (next + m)
    else if b = 124 then
      match readLine buf 1 with
      | .error e => .error e
      | .ok (line, next) =>
        match parseIntFromBytes line with
        | .error e => .error e
        | .ok count =>
          if count < 0 then .error (.protocol .negativeAttributeCount)
          else
            match framePrs recF count.toNat (buf.drop next) with
            | .error e => .error e
            | .ok m =>
              match recF (buf.drop (next + m)) with
              | .error e => .error e
              | .ok n2 => .ok (next + m + n2)
    else .error (.protocol (.unknownTypeByte b))

/-- Fuel-indexed frame length scan. -/
def frameAux : Nat → List Nat → Except Err Nat
  | 0 => fun _ => .error .incomplete
  | fuel + 1 => frameStep (frameAux fuel)

/-- The public resp_frame_len operation of src/resp/parser.rs. -/
def respFrameLen (buf : List Nat) : Except Err Nat :=
  frameAux (buf.length + 1) buf

/-! ## Command encoder (src/resp/writer.rs, encode_command) -/

/-- Decimal digit expansion helper; the fuel argument only drives the
structural recursion and is fixed to n + 1 by natDec, which is always
sufficient. -/
def natDecGo : Nat → Nat → List Nat
  | 0, _ => []
  | fuel + 1, n => if n < 10 then [48 + n] else natDecGo fuel (n / 10) ++ [48 + n % 10]

/-- ASCII decimal representation of an unsigned length, as produced by
the itoa formatting in the encoder. -/
def natDec (n : Nat) : List Nat := natDecGo (n + 1) n

/-- Value denoted by a most-significant-first ASCII digit run. -/
def dval (ds : List Nat) : Int := ds.foldl (fun (a : Int) (b : Nat) => 10 * a + ((b : Int) - 48)) 0

/-- One encoded bulk-string argument: dollar, decimal length, CRLF,
payload, CRLF. -/
def encodeArg (a : List Nat) : List Nat :=
  36 :: (natDec a.length ++ 13 :: 10 :: a ++ [13, 10])

/-- The encode_command operation of src/resp/writer.rs: a star header
with the argument count, then each argument as a bulk string. -/
def encodeCommand (args : List (List Nat)) : List Nat :=
  42 :: (natDec args.length ++ 13 :: 10 :: args.flatMap encodeArg)

/-! ## CRC16-XMODEM and hash slots (src/crc16.rs)

The u16 state is modelled as Nat kept below 2 to the 16th by explicit
reduction at every shift, matching the wrapping left shifts of the
source. -/

/-- One conditional-xor shift of the CRC register (polynomial 0x1021),
the loop body of the table builder. -/
def crcStep (c : Nat) : Nat :=
  if c &&& 2 ^ 15 ≠ 0 then ((c * 2) % 2 ^ 16) ^^^ 4129 else (c * 2) % 2 ^ 16

/-- Entry i of the CRC16_TABLE static: eight conditional-xor shifts of
the byte value placed in the high half of the register. -/
def tableEntry (i : Nat) : Nat := crcStep^[8] ((i * 2 ^ 8) % 2 ^ 16)

/-- Table-driven crc16 of src/crc16.rs. -/
def crc16 (data : List Nat) : Nat :=
  data.foldl (fun crc byte => ((crc * 2 ^ 8) % 2 ^ 16) ^^^ tableEntry ((crc / 2 ^ 8) ^^^ byte)) 0

/-- Bitwise reference definition of CRC16-XMODEM (polynomial 0x1021,
initial value 0): xor each byte into the high half of the register and
perform eight conditional-xor shifts.  This is the specification-side
definition against which the table-driven crc16 is compared. -/
def crc16Ref (data : List Nat) : Nat :=
  data.foldl (fun crc byte => crcStep^[8] (crc ^^^ ((byte * 2 ^ 8) % 2 ^ 16))) 0

/-- Index of the first occurrence of a byte, mirroring the
iter().position() calls of extract_hash_tag. -/
def posOf (t : Nat) : List Nat → Option Nat
  | [] => none
  | b :: rest => if b = t then some 0 else (posOf t rest).map (· + 1)

/-- Hash tag extraction of src/crc16.rs: the span between the first
open brace and the first close brace after it, when that span is
nonempty; otherwise the whole key. -/
def extractHashTag (key : List Nat) : List Nat :=
  match posOf 123 key with
  | some op =>
    match posOf 125 (key.drop (op + 1)) with
    | some closeOff =>
      if 0 < closeOff then (key.drop (op + 1)).take closeOff else key
    | none => key
  | none => key

/-- Hash slot of src/crc16.rs: crc16 of the hash-tag portion, modulo the
16384 cluster slots. -/
def hashSlot (key : List Nat) : Nat := crc16 (extractHashTag key) % 16384

/-! ## Error kind classification (src/error.rs)

Server error messages are Rust strings; this part of the embedding works
on List Char so that the character-level prefix and whitespace
operations of the source are direct. -/

/-- Character list of a string literal. -/
def chars (s : String) : List Char := s.toList

/-- Remainder of a list after a literal head sequence, mirroring
str::strip on a pattern that must match at the start. -/
def stripPre : List Char → List Char → Option (List Char)
  | [], l => some l
  | p :: ps, l =>
    match l with
    | [] => none
    | c :: cs => if c = p then stripPre ps cs else none

/-- Whether a list starts with the given head sequence. -/
def startsWithChars (p l : List Char) : Bool :=
  match stripPre p l with
  | some _ => true
  | none => false

/-- Split at the first occurrence of a separator, mirroring
str::split_once. -/
def splitOnceChar (sep : Char) : List Char → Option (List Char × List Char)
  | [] => none
  | c :: cs =>
    if c = sep then some ([], cs)
    else
      match splitOnceChar sep cs with
      | some (a, b) => some (c :: a, b)
      | none => none

/-- ASCII digit character test. -/
def isAsciiDigitChar (c : Char) : Bool := decide ('0' ≤ c ∧ c ≤ '9')

/-- Acceptance and value of u16::from_str: optional plus sign, nonempty
ASCII digit run, value within sixteen bits (the per-digit checked
arithmetic of the source is equivalent to the final range check since
digits only grow the magnitude). -/
def parseU16 (s : List Char) : Option Nat :=
  match s with
  | [] => none
  | c :: rest =>
    let digits := if c = '+' then rest else s
    if digits.isEmpty || !digits.all isAsciiDigitChar then none
    else
      let v := digits.foldl (fun a d => 10 * a + (d.toNat - 48)) 0
      if v < 65536 then some v else none

/-- Unicode White_Space property, the predicate behind the
split_whitespace call of the source. -/
def isRustWs (c : Char) : Bool :=
  decide ((9 ≤ c.toNat ∧ c.toNat ≤ 13) ∨ c.toNat = 32 ∨ c.toNat = 0x85 ∨
    c.toNat = 0xA0 ∨ c.toNat = 0x1680 ∨ (0x2000 ≤ c.toNat ∧ c.toNat ≤ 0x200A) ∨
    c.toNat = 0x2028 ∨ c.toNat = 0x2029 ∨ c.toNat = 0x202F ∨ c.toNat = 0x205F ∨
    c.toNat = 0x3000)

/-- First whitespace-delimited token of a message (possibly empty when
the message has no token), as produced by split_whitespace().next(). -/
def firstToken (msg : List Char) : List Char :=
  (msg.dropWhile isRustWs).takeWhile (fun c => !isRustWs c)

/-- Structured Redis error kinds of src/error.rs. -/
inductive RedisErrorKind where
  | err
  | wrongType
  | moved (slot : Nat) (addr : List Char)
  | ask (slot : Nat) (addr : List Char)
  | clusterDown
  | loading
  | readOnly
  | noScript
  | busy
  | tryAgain
  | other (p : List Char)
  deriving DecidableEq, Repr

/-- RedisErrorKind::from_error_msg of src/error.rs: structured MOVED and
ASK handling with u16 slot parsing and degradation to Other on a
malformed redirect, then a starts_with chain over the known kinds, then
the first whitespace-delimited token as the Other payload. -/
def fromErrorMsg (msg : List Char) : RedisErrorKind × List Char :=
  match stripPre (chars "MOVED ") msg with
  | some rest =>
    (match splitOnceChar ' ' rest with
     | some (slotStr, addr) =>
       match parseU16 slotStr with
       | some slot => (.moved slot addr, msg)
       | none => (.other (chars "MOVED"), msg)
     | none => (.other (chars "MOVED"), msg))
  | none =>
    match stripPre (chars "ASK ") msg with
    | some rest =>
      (match splitOnceChar ' ' rest with
       | some (slotStr, addr) =>
         match parseU16 slotStr with
         | some slot => (.ask slot addr, msg)
         | none => (.other (chars "ASK"), msg)
       | none => (.other (chars "ASK"), msg))
    | none =>
      let kind : RedisErrorKind :=
        if startsWithChars (chars "WRONGTYPE") msg then .wrongType
        else if startsWithChars (chars "CLUSTERDOWN") msg then .clusterDown
        else if startsWithChars (chars "LOADING") msg then .loading
        else if startsWithChars (chars "READONLY") msg then .readOnly
        else if startsWithChars (chars "NOSCRIPT") msg then .noScript
        else if startsWithChars (chars "BUSY") msg then .busy
        else if startsWithChars (chars "TRYAGAIN") msg then .tryAgain
        else if startsWithChars (chars "ERR") msg then .err
        else
          let t := firstToken msg
          .other (if t.isEmpty then chars "UNKNOWN" else t)
      (kind, msg)

/-- Kind selection as worded by the specification: the first
whitespace-delimited token selects the kind, with the same structured
MOVED and ASK handling.  This definition follows the words of the spec
and exists only to be compared with fromErrorMsg, which is translated
from the source. -/
def fromErrorMsgSpecWords (msg : List Char) : RedisErrorKind :=
  match stripPre (chars "MOVED ") msg with
  | some rest =>
    (match splitOnceChar ' ' rest with
     | some (slotStr, addr) =>
       match parseU16 slotStr with
       | some slot => .moved slot addr
       | none => .other (chars "MOVED")
     | none => .other (chars "MOVED"))
  | none =>
    match stripPre (chars "ASK ") msg with
    | some rest =>
      (match splitOnceChar ' ' rest with
       | some (slotStr, addr) =>
         match parseU16 slotStr with
         | some slot => .ask slot addr
         | none => .other (chars "ASK")
       | none => .other (chars "ASK"))
    | none =>
      let t := firstToken msg
      if t = chars "WRONGTYPE" then .wrongType
      else if t = chars "CLUSTERDOWN" then .clusterDown
      else if t = chars "LOADING" then .loading
      else if t = chars "READONLY" then .readOnly
      else if t = chars "NOSCRIPT" then .noScript
      else if t = chars "BUSY" then .busy
      else if t = chars "TRYAGAIN" then .tryAgain
      else if t = chars "ERR" then .err
      else .other (if t.isEmpty then chars "UNKNOWN" else t)

/-! ## Connection pool return path (src/connection/pool.rs)

Only the idle-queue bookkeeping is modelled: connections are identified
by numbers, staleness is a boolean input (it abstracts the last_used
age comparison), and the Rust VecDeque is modelled as a list whose head
is the back of the deque (push_back conses, pop_back takes the head).
The command outcome appears as an explicit flag so that statements can
quantify over it; the drop glue of the source has no access to any
such information, which the definitions reflect by ignoring it. -/

/-- ConnectionPool::return_connection: drop a stale connection, push
the connection to the back when the pool has room, drop it otherwise. -/
def returnConnection (stale : Bool) (maxSize : Nat) (idle : List Nat) (c : Nat) : List Nat :=
  if stale then idle
  else if idle.length < maxSize then c :: idle
  else idle

/-- PoolGuard::drop after a command with the given failure outcome: when
the connection was not taken out of the guard, it is returned to the
pool unconditionally; the failed flag is ignored because the source
drop handler cannot observe the command result. -/
def guardDropAfterCommand (_failed : Bool) (taken : Bool) (stale : Bool) (maxSize : Nat)
    (idle : List Nat) (c : Nat) : List Nat :=
  if taken then idle else returnConnection stale maxSize idle c

/-- ConnectionPool::take_healthy_connection: pop from the back of the
idle deque, discarding stale connections, until a healthy one or the
empty deque is found. -/
def takeHealthyConnection (staleOf : Nat → Bool) : List Nat → Option Nat × List Nat
  | [] => (none, [])
  | c :: rest =>
    if staleOf c then takeHealthyConnection staleOf rest
    else (some c, rest)

/-! ## Fused RESP to host-object parser (src/response.rs)

The fused parser walks a frame once and builds host-language objects.
Host objects are modelled structurally: dict and set keep their
insertion sequences (host-level hashing and equality are not modelled,
and no claim depends on them); Python integers are unbounded Int; float
keeps the accepted text.  The absolute offsets of the source are
modelled by passing the unread suffix and returning consumed byte
counts, which is what the offsets compute.  The same fuel discipline as
parse applies; in addition the source bounds the nesting depth, which
the depth argument tracks. -/

/-- Maximum container element count of src/response.rs. -/
def maxRespElements : Nat := 16777216

/-- Maximum nesting depth of src/response.rs. -/
def maxParseDepth : Nat := 512

/-- Maximum big-number text length of src/response.rs. -/
def maxBigNumberLen : Nat := 10000

/-- Host-language object produced by the fused parser. -/
inductive PyObj where
  | pyStr (s : List Nat)
  | pyBytes (b : List Nat)
  | pyInt (n : Int)
  | pyNone
  | pyBool (b : Bool)
  | pyFloat (text : List Nat)
  | pyList (items : List PyObj)
  | pyDict (pairs : List (PyObj × PyObj))
  | pySet (items : List PyObj)

/-- Protocol failures of the fused parser, one constructor per error
construction site in src/response.rs. -/
inductive FusedProtErr where
  | expectedLf
  | emptyInteger
  | noDigits
  | invalidIntByte (b : Nat)
  | invalidUtf8
  | negativeElementCount
  | countExceedsMax (c : Nat)
  | depthExceeded
  | bigNumberTooLong (len : Nat)
  | negativeBulkErrorLen
  | negativeVerbatimLen
  | invalidDouble
  | unknownTypeByte (b : Nat)
  deriving DecidableEq, Repr

/-- Failure outcomes of the fused parser: more bytes needed, protocol
violation, a server error frame raised to the host (carrying the raw
message bytes; the host-side lossy decoding and exception choice are
outside the parser), or a host-side ValueError from big-number
conversion. -/
inductive FusedErr where
  | incomplete
  | protocol (e : FusedProtErr)
  | redisRaw (msg : List Nat)
  | valueError
  deriving DecidableEq, Repr

/-- Line reader of the fused parser (fused_read_line).  The short-scan
fast path of fused_find_crlf finds the same first carriage return as
memchr, so the semantics coincide with readLine; only the error type
differs. -/
def fusedReadLine (buf : List Nat) (off : Nat) : Except FusedErr (List Nat × Nat) :=
  match readLine buf off with
  | .ok r => .ok r
  | .error .incomplete => .error .incomplete
  | .error (.protocol _) => .error (.protocol .expectedLf)

/-- Integer parser of the fused path (fused_parse_int): sign handling,
upfront digit validation reporting the first invalid byte, then a
wrapping accumulation in the positive domain and a final unchecked
negation, modelled with release-mode wrapping. -/
def fusedParseInt (bytes : List Nat) : Except FusedErr Int :=
  match bytes with
  | [] => .error (.protocol .emptyInteger)
  | b0 :: rest =>
    let negative := b0 = 45
    let digits := if b0 = 45 ∨ b0 = 43 then rest else bytes
    if digits.isEmpty then .error (.protocol .noDigits)
    else
      match digits.find? (fun b => !isDigitByte b) with
      | some bad => .error (.protocol (.invalidIntByte bad))
      | none =>
        let n := digits.foldl (fun n b => wrap64 (wrap64 (n * 10) + ((b : Int) - 48))) 0
        .ok (if negative then wrap64 (-n) else n)

/-- Count validation of src/response.rs (validated_count): negative
counts and counts beyond maxRespElements are protocol errors. -/
def validatedCount (count : Int) : Except FusedErr Nat :=
  if count < 0 then .error (.protocol .negativeElementCount)
  else
    let c := count.toNat
    if c > maxRespElements then .error (.protocol (.countExceedsMax c)) else .ok c

/-- Python whitespace stripped by int() around a numeric literal. -/
def isPyWs (b : Nat) : Bool := decide (b = 9 ∨ b = 10 ∨ b = 11 ∨ b = 12 ∨ b = 13 ∨ b = 32)

/-- Strip leading and trailing whitespace. -/
def trimWs (l : List Nat) : List Nat :=
  ((l.dropWhile isPyWs).reverse.dropWhile isPyWs).reverse

/-- Tail of a Python integer literal: digits with optional single
underscores between digits. -/
def pyDigitsTail : List Nat → Bool
  | [] => true
  | 95 :: d :: rest => isDigitByte d && pyDigitsTail rest
  | d :: rest => isDigitByte d && pyDigitsTail rest

/-- Model of the CPython int() constructor on a decimal string:
surrounding whitespace, optional sign, then a digit run with optional
single underscores between digits. -/
def pyIntParse (s : List Nat) : Option Int :=
  match trimWs s with
  | [] => none
  | c :: rest =>
    let t := c :: rest
    let negP := c = 45
    let digits := if c = 45 ∨ c = 43 then rest else t
    match digits with
    | [] => none
    | d :: ds =>
      if isDigitByte d && pyDigitsTail ds then
        let v : Nat := ((d :: ds).filter (fun b => decide (b ≠ 95))).foldl
          (fun a b => 10 * a + (b - 48)) 0
        some (if negP then -(v : Int) else (v : Int))
      else none

/-- Element loop of the fused parser (build_pylist_ffi without the
reference-count bookkeeping): parse k elements sequentially, failing on
the first element failure. -/
def pList (rec : List Nat → Nat → Bool → Except FusedErr (PyObj × Nat)) :
    Nat → List Nat → Nat → Bool → Except FusedErr (List PyObj × Nat)
  | 0, _, _, _ => .ok ([], 0)
  | k + 1, buf, d, dec =>
    match rec buf d dec with
    | .error e => .error e
    | .ok (o, n) =>
      match pList rec k (buf.drop n) d dec with
      | .error e => .error e
      | .ok (os, m) => .ok (o :: os, n + m)

/-- Key-value loop of the fused parser for maps and attributes. -/
def pPairs (rec : List Nat → Nat → Bool → Except FusedErr (PyObj × Nat)) :
    Nat → List Nat → Nat → Bool → Except FusedErr (List (PyObj × PyObj) × Nat)
  | 0, _, _, _ => .ok ([], 0)
  | k + 1, buf, d, dec =>
    match rec buf d dec with
    | .error e => .error e
    | .ok (ko, n1) =>
      match rec (buf.drop n1) d dec with
      | .error e => .error e
      | .ok (vo, n2) =>
        match pPairs rec k (buf.drop (n1 + n2)) d dec with
        | .error e => .error e
        | .ok (ps, m) => .ok ((ko, vo) :: ps, n1 + n2 + m)

/-- One dispatch step of parse_inner: depth bound first, then the
first-byte dispatch of src/response.rs. -/
def pInnerStep (rec : List Nat → Nat → Bool → Except FusedErr (PyObj × Nat))
    (buf : List Nat) (depth : Nat) (dec : Bool) : Except FusedErr (PyObj × Nat) :=
  if depth > maxParseDepth then .error (.protocol .depthExceeded)
  else
    match buf with
    | [] => .error .incomplete
    | b :: _ =>
      if b = 43 then
        match fusedReadLine buf 1 with
        | .error e => .error e
        | .ok (line, next) =>
          if utf8Valid line then .ok (.pyStr line, next)
          else .error (.protocol .invalidUtf8)
      else if b = 45 then
        match fusedReadLine buf 1 with
        | .error e => .error e
        | .ok (line, _) => .error (.redisRaw line)
      else if b = 58 then
        match fusedReadLine buf 1 with
        | .error e => .error e
        | .ok (line, next) =>
          match fusedParseInt line with
          | .error e => .error e
          | .ok n => .ok (.pyInt n, next)
      else if b = 36 then
        match fusedReadLine buf 1 with
        | .error e => .error e
        | .ok (line, next) =>
          match fusedParseInt line with
          | .error e => .error e
          | .ok len =>
            if len < 0 then .ok (.pyNone, next)
            else
              let l := len.toNat
              let total := next + l + 2
              if buf.length < total then .error .incomplete
              else
                let data := (buf.drop next).take l
                if dec then
                  if utf8Valid data then .ok (.pyStr data, total)
                  else .ok (.pyBytes data, total)
                else .ok (.pyBytes data, total)
      else if b = 42 then
        match fusedReadLine buf 1 with
        | .error e => .error e
        | .ok (line, next) =>
          match fusedParseInt line with
          | .error e => .error e
          | .ok count =>
            if count < 0 then .ok (.pyNone, next)
            else
              match validatedCount count with
              | .error e => .error e
              | .ok c =>
                match pList rec c (buf.drop next) (depth + 1) dec with
                | .error e => .error e
                | .ok (os, m) => .ok (.pyList os, next + m)
      else if b = 95 then
        if buf.length < 3 then .error .incomplete else .ok (.pyNone, 3)
      else if b = 35 then
        if buf.length < 4 then .error .incomplete
        else .ok (.pyBool (buf.getD 1 0 = 116), 4)
      else if b = 44 then
        match fusedReadLine buf 1 with
        | .error e => .error e
        | .ok (line, next) =>
          if utf8Valid line then
            if f64StrAccepts line then .ok (.pyFloat line, next)
            else .error (.protocol .invalidDouble)
          else .error (.protocol .invalidUtf8)
      else if b = 40 then
        match fusedReadLine buf 1 with
        | .error e => .error e
        | .ok (line, next) =>
          if line.length > maxBigNumberLen then
            .error (.protocol (.bigNumberTooLong line.length))
          else if utf8Valid line then
            match pyIntParse line with
            | some v => .ok (.pyInt v, next)
            | none => .error .valueError
          else .error (.protocol .invalidUtf8)
      else if b = 33 then
        match fusedReadLine buf 1 with
        | .error e => .error e
        | .ok (line, next) =>
          match fusedParseInt line with
          | .error e => .error e
          | .ok len =>
            if len < 0 then .error (.protocol .negativeBulkErrorLen)
            else
              let l := len.toNat
              let total := next + l + 2
              if buf.length < total then .error .incomplete
              else .error (.redisRaw ((buf.drop next).take l))
      else if b = 61 then
        match fusedReadLine buf 1 with
        | .error e => .error e
        | .ok (line, next) =>
          match fusedParseInt line with
          | .error e => .error e
          | .ok len =>
            if len < 0 then .error (.protocol .negativeVerbatimLen)
            else
              let l := len.toNat
              let total := next + l + 2
              if buf.length < total then .error .incomplete
              else
                let data := (buf.drop next).take l
                let text := if data.length > 4 ∧ data.getD 3 0 = 58 then data.drop 4 else data
                if utf8Valid text then .ok (.pyStr text, total)
                else .error (.protocol .invalidUtf8)
      else if b = 37 then
        match fusedReadLine buf 1 with
        | .error e => .error e
        | .ok (line, next) =>
          match fusedParseInt line with
          | .error e => .error e
          | .ok count =>
            match validatedCount count with
            | .error e => .error e
            | .ok c =>
              match pPairs rec c (buf.drop next) (depth + 1) dec with
              | .error e => .error e
              | .ok (ps, m) => .ok (.pyDict ps, next + m)
      else if b = 126 then
        match fusedReadLine buf 1 with
        | .error e => .error e
        | .ok (line, next) =>
          match fusedParseInt line with
          | .error e => .error e
          | .ok count =>
            match validatedCount count with
            | .error e => .error e
            | .ok c =>
              match pList rec c (buf.drop next) (depth + 1) dec with
              | .error e => .error e
              | .ok (os, m) => .ok (.pySet os, next + m)
      else if b = 62 then
        match fusedReadLine buf 1 with
        | .error e => .error e
        | .ok (line, next) =>
          match fusedParseInt line with
          | .error e => .error e
          | .ok count =>
            match validatedCount count with
            | .error e => .error e
            | .ok c =>
              match pList rec c (buf.drop next) (depth + 1) dec with
              | .error e => .error e
              | .ok (os, m) => .ok (.pyList os, next + m)
      else if b = 124 then
        match fusedReadLine buf 1 with
        | .error e => .error e
        | .ok (line, next) =>
          match fusedParseInt line with
          | .error e => .error e
          | .ok count =>
            match validatedCount count with
            | .error e => .error e
            | .ok c =>
              match pPairs rec c (buf.drop next) (depth + 1) dec with
              | .error e => .error e
              | .ok (ps, m) =>
                match rec (buf.drop (next + m)) (depth + 1) dec with
                | .error e => .error e
                | .ok (data, n2) =>
                  .ok (.pyDict [(.pyStr (strBytes "__attrs__"), .pyDict ps),
                                (.pyStr (strBytes "__data__"), data)], next + m + n2)
      else .error (.protocol (.unknownTypeByte b))

/-- Fuel-indexed fused parser. -/
def pInnerAux : Nat → List Nat → Nat → Bool → Except FusedErr (PyObj × Nat)
  | 0 => fun _ _ _ => .error .incomplete
  | fuel + 1 => pInnerStep (pInnerAux fuel)

/-- The public parse_to_python operation of src/response.rs: empty
check, then the inner parser at depth zero.  As with parse, fuel
length + 1 bounds the nesting depth reachable on any input. -/
def parseToPython (buf : List Nat) (dec : Bool) : Except FusedErr (PyObj × Nat) :=
  if buf.isEmpty then .error .incomplete
  else pInnerAux (buf.length + 1) buf 0 dec

/-- Chain of k star-headers each announcing one element, the canonical
deep-nesting attack input. -/
def starChain : Nat → List Nat
  | 0 => []
  | k + 1 => 42 :: 49 :: 13 :: 10 :: starChain k

/-- Expected host value for a chain of k one-element arrays around the
integer one. -/
def nestedPy : Nat → PyObj
  | 0 => .pyInt 1
  | k + 1 => .pyList [nestedPy k]

/-! ## Lemmas: CRC16 table-driven form versus bitwise reference -/

/-- The conditional polynomial xor of crcStep written through testBit. -/
lemma crcStep_eq (c : Nat) :
    crcStep c = ((c * 2) % 2 ^ 16) ^^^ (if c.testBit 15 then 4129 else 0) := by
  unfold crcStep
  have hand : c &&& 2 ^ 15 = (c.testBit 15).toNat * 2 ^ 15 := Nat.and_two_pow c 15
  by_cases h : c.testBit 15
  · rw [if_pos h, if_pos]
    rw [hand, h]
    simp
  · rw [if_neg h, if_neg, Nat.xor_zero]
    rw [hand]
    simp [h]

/-- Doubling modulo two to the sixteenth distributes over xor. -/
lemma mul_two_mod_xor (a b : Nat) :
    ((a ^^^ b) * 2) % 2 ^ 16 = ((a * 2) % 2 ^ 16) ^^^ ((b * 2) % 2 ^ 16) := by
  apply Nat.eq_of_testBit_eq
  intro i
  have h : ∀ x : Nat, x * 2 = x <<< 1 := fun x => by rw [Nat.shiftLeft_eq, pow_one]
  rw [h, h, h]
  simp only [Nat.testBit_mod_two_pow, Nat.testBit_xor, Nat.testBit_shiftLeft]
  by_cases hi : i < 16 <;> by_cases hj : i ≥ 1 <;> simp [hi, hj]

/-- Cancellation shuffle for xor, proved bitwise. -/
lemma xor_xor_cancel (a b p : Nat) : (a ^^^ p) ^^^ (b ^^^ p) = a ^^^ b := by
  apply Nat.eq_of_testBit_eq
  intro i
  rw [Nat.testBit_xor, Nat.testBit_xor, Nat.testBit_xor, Nat.testBit_xor]
  cases a.testBit i <;> cases b.testBit i <;> cases p.testBit i <;> rfl

/-- Rotation shuffle for xor, proved bitwise. -/
lemma xor_rotate (a b c : Nat) : (a ^^^ c) ^^^ b = (a ^^^ b) ^^^ c := by
  apply Nat.eq_of_testBit_eq
  intro i
  rw [Nat.testBit_xor, Nat.testBit_xor, Nat.testBit_xor, Nat.testBit_xor]
  cases a.testBit i <;> cases b.testBit i <;> cases c.testBit i <;> rfl

/-- The CRC register update is linear over xor. -/
lemma crcStep_xor (a b : Nat) : crcStep (a ^^^ b) = crcStep a ^^^ crcStep b := by
  rw [crcStep_eq, crcStep_eq, crcStep_eq, mul_two_mod_xor, Nat.testBit_xor]
  by_cases ha : a.testBit 15 <;> by_cases hb : b.testBit 15 <;> simp [ha, hb]
  · exact (xor_xor_cancel _ _ _).symm
  · exact xor_rotate _ _ _
  · rw [Nat.xor_assoc]

/-- Iterated CRC register updates are linear over xor. -/
lemma iterate_crcStep_xor (k a b : Nat) :
    crcStep^[k] (a ^^^ b) = crcStep^[k] a ^^^ crcStep^[k] b := by
  induction k generalizing a b with
  | zero => rfl
  | succ k ih =>
    rw [Function.iterate_succ_apply', Function.iterate_succ_apply',
      Function.iterate_succ_apply', ih, crcStep_xor]

/-- Below the top bit the register update is a plain doubling. -/
lemma crcStep_small (c : Nat) (h : c < 2 ^ 15) : crcStep c = c * 2 := by
  rw [crcStep_eq, Nat.testBit_lt_two_pow h]
  have h2 : c * 2 < 2 ^ 16 := by
    calc c * 2 < 2 ^ 15 * 2 := mul_lt_mul_of_pos_right h (by norm_num)
    _ = 2 ^ 16 := (pow_succ 2 15).symm
  rw [if_neg (by simp), Nat.xor_zero, Nat.mod_eq_of_lt h2]

/-- Eight register updates shift a low byte into the high half with no
polynomial terms. -/
lemma iter_small (k lo : Nat) (hk : k ≤ 8) (h : lo < 2 ^ 8) :
    crcStep^[k] lo = lo * 2 ^ k := by
  induction k with
  | zero => simp
  | succ k ih =>
    have hk8 : k ≤ 8 := by omega
    rw [Function.iterate_succ_apply', ih hk8]
    have hsmall : lo * 2 ^ k < 2 ^ 15 := by
      have h1 : lo * 2 ^ k < 2 ^ 8 * 2 ^ k :=
        mul_lt_mul_of_pos_right h (Nat.pos_pow_of_pos k (by norm_num))
      have h2 : (2 : Nat) ^ 8 * 2 ^ k ≤ 2 ^ 15 := by
        rw [← pow_add]
        exact Nat.pow_le_pow_right (by norm_num) (by omega)
      omega
    rw [crcStep_small _ hsmall, Nat.mul_assoc, ← pow_succ]

/-- High-low decomposition of a register value as a xor. -/
lemma mul_pow8_add_xor (a b : Nat) (h : b < 2 ^ 8) :
    2 ^ 8 * a + b = (a * 2 ^ 8) ^^^ b := by
  apply Nat.eq_of_testBit_eq
  intro j
  rw [Nat.testBit_mul_pow_two_add a h j, Nat.testBit_xor]
  have hsl : a * 2 ^ 8 = a <<< 8 := (Nat.shiftLeft_eq a 8).symm
  rw [hsl, Nat.testBit_shiftLeft]
  by_cases hj : j < 8
  · have h8 : ¬(8 ≤ j) := by omega
    simp [hj, h8]
  · have h8 : 8 ≤ j := by omega
    have hbj : b.testBit j = false :=
      Nat.testBit_lt_two_pow (lt_of_lt_of_le h (Nat.pow_le_pow_right (by norm_num) h8))
    simp [hj, h8, hbj]

/-- The register update stays within sixteen bits. -/
lemma crcStep_lt (c : Nat) : crcStep c < 2 ^ 16 := by
  rw [crcStep_eq]
  by_cases h : c.testBit 15
  · rw [if_pos h]
    exact Nat.xor_lt_two_pow (Nat.mod_lt _ (by norm_num)) (by norm_num)
  · rw [if_neg h, Nat.xor_zero]
    exact Nat.mod_lt _ (by norm_num)

/-- Iterated register updates stay within sixteen bits. -/
lemma iterate_crcStep_lt (k c : Nat) (h : c < 2 ^ 16) : crcStep^[k] c < 2 ^ 16 := by
  induction k with
  | zero => simpa
  | succ k ih => rw [Function.iterate_succ_apply']; exact crcStep_lt _

/-- Table entries stay within sixteen bits. -/
lemma tableEntry_lt (i : Nat) : tableEntry i < 2 ^ 16 :=
  iterate_crcStep_lt 8 _ (Nat.mod_lt _ (by norm_num))

/-- Multiplying by the byte shift distributes over xor. -/
lemma mul_pow8_xor (x y : Nat) : (x ^^^ y) * 2 ^ 8 = (x * 2 ^ 8) ^^^ (y * 2 ^ 8) := by
  apply Nat.eq_of_testBit_eq
  intro i
  have h : ∀ z : Nat, z * 2 ^ 8 = z <<< 8 := fun z => (Nat.shiftLeft_eq z 8).symm
  rw [h, h, h]
  simp only [Nat.testBit_xor, Nat.testBit_shiftLeft]
  by_cases hj : i ≥ 8 <;> simp [hj]

/-- One byte of the table-driven fold equals one byte of the bitwise
reference fold, on states within sixteen bits and byte inputs. -/
lemma crcFoldStep_eq (crc b : Nat) (hc : crc < 2 ^ 16) (hb : b < 2 ^ 8) :
    ((crc * 2 ^ 8) % 2 ^ 16) ^^^ tableEntry ((crc / 2 ^ 8) ^^^ b)
      = crcStep^[8] (crc ^^^ ((b * 2 ^ 8) % 2 ^ 16)) := by
  have hlo : crc % 2 ^ 8 < 2 ^ 8 := Nat.mod_lt _ (by norm_num)
  have hhi : crc / 2 ^ 8 < 2 ^ 8 := by
    rw [Nat.div_lt_iff_lt_mul (by norm_num : (0 : Nat) < 2 ^ 8)]
    calc crc < 2 ^ 16 := hc
    _ = 2 ^ 8 * 2 ^ 8 := by norm_num
    _ = _ := by ring
  have hb16 : b * 2 ^ 8 < 2 ^ 16 := by
    have : b * 2 ^ 8 < 2 ^ 8 * 2 ^ 8 :=
      mul_lt_mul_of_pos_right hb (by norm_num : (0 : Nat) < 2 ^ 8)
    calc b * 2 ^ 8 < 2 ^ 8 * 2 ^ 8 := this
    _ = 2 ^ 16 := by norm_num
  have hdec : crc = ((crc / 2 ^ 8) * 2 ^ 8) ^^^ (crc % 2 ^ 8) := by
    conv_lhs => rw [← Nat.div_add_mod crc (2 ^ 8)]
    exact mul_pow8_add_xor _ _ hlo
  have hcrcmul : (crc * 2 ^ 8) % 2 ^ 16 = (crc % 2 ^ 8) * 2 ^ 8 := by
    conv_lhs => rw [← Nat.div_add_mod crc (2 ^ 8)]
    have hexp : (2 ^ 8 * (crc / 2 ^ 8) + crc % 2 ^ 8) * 2 ^ 8
        = 2 ^ 16 * (crc / 2 ^ 8) + (crc % 2 ^ 8) * 2 ^ 8 := by ring
    rw [hexp, Nat.mul_add_mod, Nat.mod_eq_of_lt]
    have : (crc % 2 ^ 8) * 2 ^ 8 < 2 ^ 8 * 2 ^ 8 :=
      mul_lt_mul_of_pos_right hlo (by norm_num : (0 : Nat) < 2 ^ 8)
    calc (crc % 2 ^ 8) * 2 ^ 8 < 2 ^ 8 * 2 ^ 8 := this
    _ = 2 ^ 16 := by norm_num
  have hxb : (crc / 2 ^ 8) ^^^ b < 2 ^ 8 := Nat.xor_lt_two_pow hhi hb
  have htab : tableEntry ((crc / 2 ^ 8) ^^^ b)
      = crcStep^[8] (((crc / 2 ^ 8) ^^^ b) * 2 ^ 8) := by
    unfold tableEntry
    rw [Nat.mod_eq_of_lt]
    have : ((crc / 2 ^ 8) ^^^ b) * 2 ^ 8 < 2 ^ 8 * 2 ^ 8 :=
      mul_lt_mul_of_pos_right hxb (by norm_num : (0 : Nat) < 2 ^ 8)
    calc ((crc / 2 ^ 8) ^^^ b) * 2 ^ 8 < 2 ^ 8 * 2 ^ 8 := this
    _ = 2 ^ 16 := by norm_num
  rw [Nat.mod_eq_of_lt hb16, htab, hcrcmul]
  conv_rhs => rw [hdec]
  have hrearr : ((((crc / 2 ^ 8) * 2 ^ 8) ^^^ (crc % 2 ^ 8)) ^^^ (b * 2 ^ 8))
      = (((crc / 2 ^ 8) ^^^ b) * 2 ^ 8) ^^^ (crc % 2 ^ 8) := by
    rw [mul_pow8_xor]
    exact xor_rotate _ _ _
  rw [hrearr, iterate_crcStep_xor, iter_small 8 _ le_rfl hlo, Nat.xor_comm]

/-! ## Lemmas: hash tag extraction -/

/-- Position of a byte just past a clean head segment. -/
lemma posOf_append_not_mem (x : Nat) (a r : List Nat) (hx : x ∉ a) :
    posOf x (a ++ x :: r) = some a.length := by
  induction a with
  | nil => simp [posOf]
  | cons y t ih =>
    have hy : ¬(y = x) := fun h => hx (by simp [h])
    have ht : x ∉ t := fun h => hx (List.mem_cons_of_mem _ h)
    simp [posOf, hy, ih ht]

/-- On a key of the shape head, open brace, tag, close brace, tail,
with no earlier open brace, no close brace inside the nonempty tag,
extraction returns exactly the tag. -/
lemma extractHashTag_append (a t b : List Nat) (ht : t ≠ []) (ha : (123 : Nat) ∉ a)
    (htc : (125 : Nat) ∉ t) :
    extractHashTag (a ++ 123 :: (t ++ 125 :: b)) = t := by
  have hdrop : (a ++ 123 :: (t ++ 125 :: b)).drop (a.length + 1) = t ++ 125 :: b := by
    have hsplit : a ++ 123 :: (t ++ 125 :: b) = (a ++ [123]) ++ (t ++ 125 :: b) := by simp
    rw [hsplit, show a.length + 1 = (a ++ [123]).length by simp, List.drop_left]
  have hpos : 0 < t.length := List.length_pos.mpr ht
  unfold extractHashTag
  simp only [posOf_append_not_mem 123 a _ ha, hdrop, posOf_append_not_mem 125 t b htc,
    if_pos hpos, List.take_left]

/-- Fold-level agreement of the table-driven crc16 with the bitwise
reference, generalized over the accumulator. -/
lemma crc16_fold_eq (data : List Nat) :
    ∀ acc : Nat, acc < 2 ^ 16 → (∀ b ∈ data, b < 2 ^ 8) →
      data.foldl (fun crc byte =>
          ((crc * 2 ^ 8) % 2 ^ 16) ^^^ tableEntry ((crc / 2 ^ 8) ^^^ byte)) acc
        = data.foldl (fun crc byte => crcStep^[8] (crc ^^^ ((byte * 2 ^ 8) % 2 ^ 16))) acc := by
  induction data with
  | nil => intro acc _ _; rfl
  | cons b rest ih =>
    intro acc hacc hbytes
    have hb : b < 2 ^ 8 := hbytes b (List.mem_cons_self b rest)
    have hrest : ∀ x ∈ rest, x < 2 ^ 8 := fun x hx => hbytes x (List.mem_cons_of_mem b hx)
    have hnext : ((acc * 2 ^ 8) % 2 ^ 16) ^^^ tableEntry ((acc / 2 ^ 8) ^^^ b) < 2 ^ 16 :=
      Nat.xor_lt_two_pow (Nat.mod_lt _ (by norm_num)) (tableEntry_lt _)
    simp only [List.foldl_cons]
    rw [← crcFoldStep_eq acc b hacc hb]
    exact ih _ hnext hrest

/-! ## Lemmas: integer parsing rejection -/

/-- The digit loop fails on any list containing a non-digit byte: it
reports the first such byte, unless an overflow error fires first. -/
lemma intLoop_error_of_bad : ∀ (ds : List Nat) (acc : Int),
    (∃ bad ∈ ds, isDigitByte bad = false) →
    ∃ e, intLoop ds acc = .error (.protocol e) := by
  intro ds
  induction ds with
  | nil =>
    rintro acc ⟨bad, hmem,LBAD⟩
    cases hmem
  | cons d t ih =>
    rintro acc ⟨bad, hmem, hbad⟩
    by_cases hd : isDigitByte d
    · have hmem' : bad ∈ t := by
        rcases List.mem_cons.mp hmem with h | h
        · subst h; rw [hbad] at hd; cases hd
        · exact h
      by_cases h1 : acc * 10 < i64Min ∨ i64Max < acc * 10
      · exact ⟨.integerOverflow, by simp [intLoop, hd, h1]⟩
      · by_cases h2 : acc * 10 - ((d : Int) - 48) < i64Min ∨
          i64Max < acc * 10 - ((d : Int) - 48)
        · exact ⟨.integerOverflow, by simp [intLoop, hd, h1, h2]⟩
        · have := ih (acc * 10 - ((d : Int) - 48)) ⟨bad, hmem', hbad⟩
          rcases this with ⟨e, he⟩
          exact ⟨e, by simp [intLoop, hd, h1, h2, he]⟩
    · exact ⟨.invalidIntByte d, by simp [intLoop, hd]⟩

/-! ## Lemmas: parser consumption bounds -/

/-- A parser consumes at least one byte and never more than the buffer
holds, on every success. -/
def ConsumesOk (p : List Nat → Except Err (RespValue × Nat)) : Prop :=
  ∀ buf v n, p buf = .ok (v, n) → 1 ≤ n ∧ n ≤ buf.length

/-- Any found carriage-return position is inside the list. -/
lemma memchrCr_lt (l : List Nat) (p : Nat) (h : memchrCr l = some p) : p < l.length := by
  induction l generalizing p with
  | nil => simp [memchrCr] at h
  | cons b rest ih =>
    by_cases hb : b = 13
    · simp [memchrCr, hb] at h
      simp only [List.length_cons]
      omega
    · simp [memchrCr, hb] at h
      rcases h with ⟨q, hq, rfl⟩
      have := ih q hq
      simp
      omega

/-- A successful CRLF search yields a carriage return at or past the
offset with the line feed inside the buffer. -/
lemma findCrlf_bounds (buf : List Nat) (off cr : Nat) (h : findCrlf buf off = .ok cr) :
    off ≤ cr ∧ cr + 1 < buf.length := by
  unfold findCrlf at h
  cases hm : memchrCr (buf.drop off) with
  | none => rw [hm] at h; cases h
  | some pos =>
    rw [hm] at h
    dsimp only at h
    by_cases h1 : off + pos + 1 < buf.length
    · rw [if_pos h1] at h
      by_cases h2 : buf.getD (off + pos + 1) 0 = 10
      · rw [if_pos h2] at h
        cases h
        omega
      · rw [if_neg h2] at h; cases h
    · rw [if_neg h1] at h; cases h

/-- A successful line read ends at least three bytes in and within the
buffer. -/
lemma readLine_bounds (buf : List Nat) (off : Nat) (line : List Nat) (next : Nat)
    (h : readLine buf off = .ok (line, next)) : off + 2 ≤ next ∧ next ≤ buf.length := by
  unfold readLine at h
  cases hf : findCrlf buf off with
  | error e => rw [hf] at h; cases h
  | ok cr =>
    rw [hf] at h
    cases h
    have := findCrlf_bounds buf off cr hf
    omega

/-- The element loop consumes at most the buffer. -/
lemma parseCnt_consumed (rec : List Nat → Except Err (RespValue × Nat))
    (hrec : ConsumesOk rec) :
    ∀ (k : Nat) (buf : List Nat) (vs : List RespValue) (m : Nat),
      parseCnt rec k buf = .ok (vs, m) → m ≤ buf.length := by
  intro k
  induction k with
  | zero =>
    intro buf vs m h
    unfold parseCnt at h
    cases h
    omega
  | succ k ih =>
    intro buf vs m h
    unfold parseCnt at h
    cases h1 : rec buf with
    | error e => rw [h1] at h; cases h
    | ok p =>
      obtain ⟨v, n⟩ := p
      rw [h1] at h
      dsimp only at h
      cases h2 : parseCnt rec k (buf.drop n) with
      | error e => rw [h2] at h; cases h
      | ok q =>
        obtain ⟨vs2, m2⟩ := q
        rw [h2] at h
        dsimp only at h
        cases h
        have hb := hrec buf v n h1
        have hm2 := ih (buf.drop n) vs2 m2 h2
        rw [List.length_drop] at hm2
        omega

/-- The pair loop consumes at most the buffer. -/
lemma parsePrs_consumed (rec : List Nat → Except Err (RespValue × Nat))
    (hrec : ConsumesOk rec) :
    ∀ (k : Nat) (buf : List Nat) (ps : List (RespValue × RespValue)) (m : Nat),
      parsePrs rec k buf = .ok (ps, m) → m ≤ buf.length := by
  intro k
  induction k with
  | zero =>
    intro buf ps m h
    unfold parsePrs at h
    cases h
    omega
  | succ k ih =>
    intro buf ps m h
    unfold parsePrs at h
    cases h1 : rec buf with
    | error e => rw [h1] at h; cases h
    | ok p =>
      obtain ⟨kv, n1⟩ := p
      rw [h1] at h
      dsimp only at h
      cases h2 : rec (buf.drop n1) with
      | error e => rw [h2] at h; cases h
      | ok q =>
        obtain ⟨vv, n2⟩ := q
        rw [h2] at h
        dsimp only at h
        cases h3 : parsePrs rec k (buf.drop (n1 + n2)) with
        | error e => rw [h3] at h; cases h
        | ok r =>
          obtain ⟨ps2, m2⟩ := r
          rw [h3] at h
          dsimp only at h
          cases h
          have hb1 := hrec buf kv n1 h1
          have hb2 := hrec (buf.drop n1) vv n2 h2
          have hm2 := ih (buf.drop (n1 + n2)) ps2 m2 h3
          rw [List.length_drop] at hb2 hm2
          omega

/-- One dispatch step preserves the consumption bounds. -/
lemma parseStep_consumes (rec : List Nat → Except Err (RespValue × Nat))
    (hrec : ConsumesOk rec) : ConsumesOk (parseStep rec) := by
  intro buf v n h
  match buf with
  | [] => cases h
  | b :: rest =>
    rw [parseStep] at h
    by_cases hb1 : b = 43
    · rw [if_pos hb1] at h
      -- simple string
      unfold parseSimpleStringM at h
      cases hrl : readLine (b :: rest) 1 with
      | error e => rw [hrl] at h; cases h
      | ok p =>
        obtain ⟨line, next⟩ := p
        rw [hrl] at h
        dsimp only at h
        have hb := readLine_bounds _ _ _ _ hrl
        split at h
        · cases h; omega
        · split at h
          · cases h; omega
          · cases h
    rw [if_neg hb1] at h
    by_cases hb2 : b = 45
    · rw [if_pos hb2] at h
      -- simple error
      unfold parseSimpleErrorM at h
      cases hrl : readLine (b :: rest) 1 with
      | error e => rw [hrl] at h; cases h
      | ok p =>
        obtain ⟨line, next⟩ := p
        rw [hrl] at h
        dsimp only at h
        have hb := readLine_bounds _ _ _ _ hrl
        split at h
        · cases h; omega
        · cases h
    rw [if_neg hb2] at h
    by_cases hb3 : b = 58
    · rw [if_pos hb3] at h
      -- integer
      unfold parseIntegerM at h
      cases hrl : readLine (b :: rest) 1 with
      | error e => rw [hrl] at h; cases h
      | ok p =>
        obtain ⟨line, next⟩ := p
        rw [hrl] at h
        dsimp only at h
        have hb := readLine_bounds _ _ _ _ hrl
        cases hint : parseIntFromBytes line with
        | error e => rw [hint] at h; cases h
        | ok i => rw [hint] at h; cases h; omega
    rw [if_neg hb3] at h
    by_cases hb4 : b = 36
    · rw [if_pos hb4] at h
      -- bulk string
      unfold parseBulkStringM at h
      cases hrl : readLine (b :: rest) 1 with
      | error e => rw [hrl] at h; cases h
      | ok p =>
        obtain ⟨line, next⟩ := p
        rw [hrl] at h
        dsimp only at h
        have hb := readLine_bounds _ _ _ _ hrl
        cases hint : parseIntFromBytes line with
        | error e => rw [hint] at h; cases h
        | ok len =>
          rw [hint] at h
          dsimp only at h
          split at h
          · cases h; omega
          · split at h
            · cases h
            · split at h
              · cases h; omega
              · cases h
    rw [if_neg hb4] at h
    by_cases hb5 : b = 42
    · rw [if_pos hb5] at h
      -- array
      unfold parseArrayM at h
      cases hrl : readLine (b :: rest) 1 with
      | error e => rw [hrl] at h; cases h
      | ok p =>
        obtain ⟨line, next⟩ := p
        rw [hrl] at h
        dsimp only at h
        have hb := readLine_bounds _ _ _ _ hrl
        cases hint : parseIntFromBytes line with
        | error e => rw [hint] at h; cases h
        | ok count =>
          rw [hint] at h
          dsimp only at h
          split at h
          · cases h; omega
          · cases hcnt : parseCnt rec count.toNat ((b :: rest).drop next) with
            | error e => rw [hcnt] at h; cases h
            | ok q =>
              obtain ⟨elems, m⟩ := q
              rw [hcnt] at h
              dsimp only at h
              cases h
              have hm := parseCnt_consumed rec hrec _ _ _ _ hcnt
              rw [List.length_drop] at hm
              omega
    rw [if_neg hb5] at h
    by_cases hb6 : b = 95
    · rw [if_pos hb6] at h
      -- null
      unfold parseNullM at h
      split at h
      · cases h
      · split at h
        · cases h
          constructor
          · omega
          · simp at *
            omega
        · cases h
    rw [if_neg hb6] at h
    by_cases hb7 : b = 35
    · rw [if_pos hb7] at h
      -- boolean
      unfold parseBooleanM at h
      dsimp only at h
      split at h
      · cases h
      · split at h
        · split at h
          · cases h
            constructor
            · omega
            · simp at *
              omega
          · cases h
        · cases h
    rw [if_neg hb7] at h
    by_cases hb8 : b = 44
    · rw [if_pos hb8] at h
      -- double
      unfold parseDoubleM at h
      cases hrl : readLine (b :: rest) 1 with
      | error e => rw [hrl] at h; cases h
      | ok p =>
        obtain ⟨line, next⟩ := p
        rw [hrl] at h
        dsimp only at h
        have hb := readLine_bounds _ _ _ _ hrl
        split at h
        · split at h
          · cases h; omega
          · split at h
            · cases h; omega
            · cases h
        · cases h
    rw [if_neg hb8] at h
    by_cases hb9 : b = 40
    · rw [if_pos hb9] at h
      -- big number
      unfold parseBigNumberM at h
      cases hrl : readLine (b :: rest) 1 with
      | error e => rw [hrl] at h; cases h
      | ok p =>
        obtain ⟨line, next⟩ := p
        rw [hrl] at h
        dsimp only at h
        have hb := readLine_bounds _ _ _ _ hrl
        split at h
        · split at h
          · cases h
          · cases h; omega
        · cases h
    rw [if_neg hb9] at h
    by_cases hb10 : b = 33
    · rw [if_pos hb10] at h
      -- bulk error
      unfold parseBulkErrorM at h
      cases hrl : readLine (b :: rest) 1 with
      | error e => rw [hrl] at h; cases h
      | ok p =>
        obtain ⟨line, next⟩ := p
        rw [hrl] at h
        dsimp only at h
        have hb := readLine_bounds _ _ _ _ hrl
        cases hint : parseIntFromBytes line with
        | error e => rw [hint] at h; cases h
        | ok len =>
          rw [hint] at h
          dsimp only at h
          split at h
          · cases h
          · split at h
            · cases h
            · split at h
              · split at h
                · cases h; omega
                · cases h
              · cases h
    rw [if_neg hb10] at h
    by_cases hb11 : b = 61
    · rw [if_pos hb11] at h
      -- verbatim string
      unfold parseVerbatimM at h
      cases hrl : readLine (b :: rest) 1 with
      | error e => rw [hrl] at h; cases h
      | ok p =>
        obtain ⟨line, next⟩ := p
        rw [hrl] at h
        dsimp only at h
        have hb := readLine_bounds _ _ _ _ hrl
        cases hint : parseIntFromBytes line with
        | error e => rw [hint] at h; cases h
        | ok len =>
          rw [hint] at h
          dsimp only at h
          split at h
          · cases h
          · split at h
            · cases h
            · split at h
              · split at h
                · cases h
                · split at h
                  · split at h
                    · cases h; omega
                    · cases h
                  · cases h
              · cases h
    rw [if_neg hb11] at h
    by_cases hb12 : b = 37
    · rw [if_pos hb12] at h
      -- map
      unfold parseMapM at h
      cases hrl : readLine (b :: rest) 1 with
      | error e => rw [hrl] at h; cases h
      | ok p =>
        obtain ⟨line, next⟩ := p
        rw [hrl] at h
        dsimp only at h
        have hb := readLine_bounds _ _ _ _ hrl
        cases hint : parseIntFromBytes line with
        | error e => rw [hint] at h; cases h
        | ok count =>
          rw [hint] at h
          dsimp only at h
          split at h
          · cases h
          · cases hps : parsePrs rec count.toNat ((b :: rest).drop next) with
            | error e => rw [hps] at h; cases h
            | ok q =>
              obtain ⟨ps, m⟩ := q
              rw [hps] at h
              dsimp only at h
              cases h
              have hm := parsePrs_consumed rec hrec _ _ _ _ hps
              rw [List.length_drop] at hm
              omega
    rw [if_neg hb12] at h
    by_cases hb13 : b = 126
    · rw [if_pos hb13] at h
      -- set
      unfold parseSetM at h
      cases hrl : readLine (b :: rest) 1 with
      | error e => rw [hrl] at h; cases h
      | ok p =>
        obtain ⟨line, next⟩ := p
        rw [hrl] at h
        dsimp only at h
        have hb := readLine_bounds _ _ _ _ hrl
        cases hint : parseIntFromBytes line with
        | error e => rw [hint] at h; cases h
        | ok count =>
          rw [hint] at h
          dsimp only at h
          split at h
          · cases h
          · cases hcnt : parseCnt rec count.toNat ((b :: rest).drop next) with
            | error e => rw [hcnt] at h; cases h
            | ok q =>
              obtain ⟨elems, m⟩ := q
              rw [hcnt] at h
              dsimp only at h
              cases h
              have hm := parseCnt_consumed rec hrec _ _ _ _ hcnt
              rw [List.length_drop] at hm
              omega
    rw [if_neg hb13] at h
    by_cases hb14 : b = 62
    · rw [if_pos hb14] at h
      -- push
      unfold parsePushM at h
      cases hrl : readLine (b :: rest) 1 with
      | error e => rw [hrl] at h; cases h
      | ok p =>
        obtain ⟨line, next⟩ := p
        rw [hrl] at h
        dsimp only at h
        have hb := readLine_bounds _ _ _ _ hrl
        cases hint : parseIntFromBytes line with
        | error e => rw [hint] at h; cases h
        | ok count =>
          rw [hint] at h
          dsimp only at h
          split at h
          · cases h
          · split at h
            · cases h
            · cases hk : rec ((b :: rest).drop next) with
              | error e => rw [hk] at h; cases h
              | ok q =>
                obtain ⟨kindVal, n1⟩ := q
                rw [hk] at h
                dsimp only at h
                have hb1 := hrec _ _ _ hk
                rw [List.length_drop] at hb1
                split at h
                · cases hcnt : parseCnt rec (count.toNat - 1)
                      ((b :: rest).drop (next + n1)) with
                  | error e => rw [hcnt] at h; cases h
                  | ok r =>
                    obtain ⟨data, m⟩ := r
                    rw [hcnt] at h
                    dsimp only at h
                    cases h
                    have hm := parseCnt_consumed rec hrec _ _ _ _ hcnt
                    rw [List.length_drop] at hm
                    omega
                · split at h
                  · cases hcnt : parseCnt rec (count.toNat - 1)
                        ((b :: rest).drop (next + n1)) with
                    | error e => rw [hcnt] at h; cases h
                    | ok r =>
                      obtain ⟨data, m⟩ := r
                      rw [hcnt] at h
                      dsimp only at h
                      cases h
                      have hm := parseCnt_consumed rec hrec _ _ _ _ hcnt
                      rw [List.length_drop] at hm
                      omega
                  · cases h
                · cases h
    rw [if_neg hb14] at h
    by_cases hb15 : b = 124
    · rw [if_pos hb15] at h
      -- attribute
      unfold parseAttributeM at h
      cases hrl : readLine (b :: rest) 1 with
      | error e => rw [hrl] at h; cases h
      | ok p =>
        obtain ⟨line, next⟩ := p
        rw [hrl] at h
        dsimp only at h
        have hb := readLine_bounds _ _ _ _ hrl
        cases hint : parseIntFromBytes line with
        | error e => rw [hint] at h; cases h
        | ok count =>
          rw [hint] at h
          dsimp only at h
          split at h
          · cases h
          · cases hps : parsePrs rec count.toNat ((b :: rest).drop next) with
            | error e => rw [hps] at h; cases h
            | ok q =>
              obtain ⟨ps, m⟩ := q
              rw [hps] at h
              dsimp only at h
              cases hd : rec ((b :: rest).drop (next + m)) with
              | error e => rw [hd] at h; cases h
              | ok r =>
                obtain ⟨data, n2⟩ := r
                rw [hd] at h
                dsimp only at h
                cases h
                have hm := parsePrs_consumed rec hrec _ _ _ _ hps
                have hb2 := hrec _ _ _ hd
                rw [List.length_drop] at hm hb2
                omega
    rw [if_neg hb15] at h
    cases h
/-- Every fuel level of the parser obeys the consumption bounds. -/
lemma parseAux_consumes : ∀ fuel, ConsumesOk (parseAux fuel) := by
  intro fuel
  induction fuel with
  | zero => intro buf v n h; simp [parseAux] at h
  | succ fuel ih => exact parseStep_consumes _ ih

/-! ## Lemmas: frame length agreement -/

/-- The value parser and the frame length scan agree: whenever the
parser succeeds, the scan returns exactly the consumed byte count. -/
def AgreesLen (p : List Nat → Except Err (RespValue × Nat))
    (q : List Nat → Except Err Nat) : Prop :=
  ∀ buf v n, p buf = .ok (v, n) → q buf = .ok n

/-- Unfolding step for the child-frame loop. -/
lemma frameCnt_succ_of (recF : List Nat → Except Err Nat) (k : Nat) (buf : List Nat)
    (n1 m : Nat) (h1 : recF buf = .ok n1) (h2 : frameCnt recF k (buf.drop n1) = .ok m) :
    frameCnt recF (k + 1) buf = .ok (n1 + m) := by
  unfold frameCnt
  rw [h1]
  dsimp only
  rw [h2]

/-- Agreement transfers to the element loops. -/
lemma parseCnt_frameCnt (rec : List Nat → Except Err (RespValue × Nat))
    (recF : List Nat → Except Err Nat) (hag : AgreesLen rec recF) :
    ∀ (k : Nat) (buf : List Nat) (vs : List RespValue) (m : Nat),
      parseCnt rec k buf = .ok (vs, m) → frameCnt recF k buf = .ok m := by
  intro k
  induction k with
  | zero =>
    intro buf vs m h
    unfold parseCnt at h
    cases h
    rfl
  | succ k ih =>
    intro buf vs m h
    unfold parseCnt at h
    cases h1 : rec buf with
    | error e => rw [h1] at h; cases h
    | ok p =>
      obtain ⟨v, n⟩ := p
      rw [h1] at h
      dsimp only at h
      cases h2 : parseCnt rec k (buf.drop n) with
      | error e => rw [h2] at h; cases h
      | ok q =>
        obtain ⟨vs2, m2⟩ := q
        rw [h2] at h
        dsimp only at h
        cases h
        exact frameCnt_succ_of recF k buf n m2 (hag _ _ _ h1) (ih _ _ _ h2)

/-- Agreement transfers to the pair loops. -/
lemma parsePrs_framePrs (rec : List Nat → Except Err (RespValue × Nat))
    (recF : List Nat → Except Err Nat) (hag : AgreesLen rec recF) :
    ∀ (k : Nat) (buf : List Nat) (ps : List (RespValue × RespValue)) (m : Nat),
      parsePrs rec k buf = .ok (ps, m) → framePrs recF k buf = .ok m := by
  intro k
  induction k with
  | zero =>
    intro buf ps m h
    unfold parsePrs at h
    cases h
    rfl
  | succ k ih =>
    intro buf ps m h
    unfold parsePrs at h
    cases h1 : rec buf with
    | error e => rw [h1] at h; cases h
    | ok p =>
      obtain ⟨kv, n1⟩ := p
      rw [h1] at h
      dsimp only at h
      cases h2 : rec (buf.drop n1) with
      | error e => rw [h2] at h; cases h
      | ok q =>
        obtain ⟨vv, n2⟩ := q
        rw [h2] at h
        dsimp only at h
        cases h3 : parsePrs rec k (buf.drop (n1 + n2)) with
        | error e => rw [h3] at h; cases h
        | ok r =>
          obtain ⟨ps2, m2⟩ := r
          rw [h3] at h
          dsimp only at h
          cases h
          unfold framePrs
          rw [hag _ _ _ h1]
          dsimp only
          rw [hag _ _ _ h2]
          dsimp only
          rw [ih _ _ _ h3]

/-- One dispatch step preserves the frame length agreement. -/
lemma parseStep_frameStep (rec : List Nat → Except Err (RespValue × Nat))
    (recF : List Nat → Except Err Nat) (hag : AgreesLen rec recF) :
    AgreesLen (parseStep rec) (frameStep recF) := by
  intro buf v n h
  match buf with
  | [] => cases h
  | b :: rest =>
    rw [parseStep] at h
    rw [frameStep]
    by_cases hb1 : b = 43
    · rw [if_pos hb1] at h
      rw [if_pos (Or.inl hb1)]
      unfold parseSimpleStringM at h
      cases hrl : readLine (b :: rest) 1 with
      | error e => rw [hrl] at h; cases h
      | ok p =>
        obtain ⟨line, next⟩ := p
        rw [hrl] at h
        dsimp only at h
        dsimp only
        split at h
        · cases h; rfl
        · split at h
          · cases h; rfl
          · cases h
    rw [if_neg hb1] at h
    by_cases hb2 : b = 45
    · rw [if_pos hb2] at h
      rw [if_pos (Or.inr (Or.inl hb2))]
      unfold parseSimpleErrorM at h
      cases hrl : readLine (b :: rest) 1 with
      | error e => rw [hrl] at h; cases h
      | ok p =>
        obtain ⟨line, next⟩ := p
        rw [hrl] at h
        dsimp only at h
        dsimp only
        split at h
        · cases h; rfl
        · cases h
    rw [if_neg hb2] at h
    by_cases hb3 : b = 58
    · rw [if_pos hb3] at h
      rw [if_pos (Or.inr (Or.inr (Or.inl hb3)))]
      unfold parseIntegerM at h
      cases hrl : readLine (b :: rest) 1 with
      | error e => rw [hrl] at h; cases h
      | ok p =>
        obtain ⟨line, next⟩ := p
        rw [hrl] at h
        dsimp only at h
        dsimp only
        cases hint : parseIntFromBytes line with
        | error e => rw [hint] at h; cases h
        | ok i =>
          rw [hint] at h
          dsimp only at h
          cases h
          rfl
    rw [if_neg hb3] at h
    by_cases hb4 : b = 36
    · rw [if_pos hb4] at h
      rw [if_neg (show ¬(b = 43 ∨ b = 45 ∨ b = 58 ∨ b = 44 ∨ b = 40) by simp [hb4]),
        if_neg (show ¬b = 95 by simp [hb4]), if_neg (show ¬b = 35 by simp [hb4]),
        if_pos (Or.inl hb4)]
      unfold parseBulkStringM at h
      cases hrl : readLine (b :: rest) 1 with
      | error e => rw [hrl] at h; cases h
      | ok p =>
        obtain ⟨line, next⟩ := p
        rw [hrl] at h
        dsimp only at h
        dsimp only
        cases hint : parseIntFromBytes line with
        | error e => rw [hint] at h; cases h
        | ok len =>
          rw [hint] at h
          dsimp only at h
          dsimp only
          by_cases hneg : len < 0
          · rw [if_pos hneg] at h
            rw [if_pos hneg]
            cases h
            rfl
          · rw [if_neg hneg] at h
            rw [if_neg hneg]
            by_cases hlen : (b :: rest).length < next + len.toNat + 2
            · rw [if_pos hlen] at h; cases h
            · rw [if_neg hlen] at h
              rw [if_neg hlen]
              split at h
              · cases h; rfl
              · cases h
    rw [if_neg hb4] at h
    by_cases hb5 : b = 42
    · rw [if_pos hb5] at h
      rw [if_neg (show ¬(b = 43 ∨ b = 45 ∨ b = 58 ∨ b = 44 ∨ b = 40) by simp [hb5]),
        if_neg (show ¬b = 95 by simp [hb5]), if_neg (show ¬b = 35 by simp [hb5]),
        if_neg (show ¬(b = 36 ∨ b = 33 ∨ b = 61) by simp [hb5]), if_pos (Or.inl hb5)]
      unfold parseArrayM at h
      cases hrl : readLine (b :: rest) 1 with
      | error e => rw [hrl] at h; cases h
      | ok p =>
        obtain ⟨line, next⟩ := p
        rw [hrl] at h
        dsimp only at h
        dsimp only
        cases hint : parseIntFromBytes line with
        | error e => rw [hint] at h; cases h
        | ok count =>
          rw [hint] at h
          dsimp only at h
          dsimp only
          by_cases hneg : count < 0
          · rw [if_pos hneg] at h
            rw [if_pos hneg]
            cases h
            rfl
          · rw [if_neg hneg] at h
            rw [if_neg hneg]
            cases hcnt : parseCnt rec count.toNat ((b :: rest).drop next) with
            | error e => rw [hcnt] at h; cases h
            | ok q =>
              obtain ⟨elems, m⟩ := q
              rw [hcnt] at h
              dsimp only at h
              cases h
              rw [parseCnt_frameCnt rec recF hag _ _ _ _ hcnt]
    rw [if_neg hb5] at h
    by_cases hb6 : b = 95
    · rw [if_pos hb6] at h
      rw [if_neg (show ¬(b = 43 ∨ b = 45 ∨ b = 58 ∨ b = 44 ∨ b = 40) by simp [hb6]),
        if_pos hb6]
      unfold parseNullM at h
      split at h
      · cases h
      · next hlen =>
        rw [if_neg hlen]
        split at h
        · cases h; rfl
        · cases h
    rw [if_neg hb6] at h
    by_cases hb7 : b = 35
    · rw [if_pos hb7] at h
      rw [if_neg (show ¬(b = 43 ∨ b = 45 ∨ b = 58 ∨ b = 44 ∨ b = 40) by simp [hb7]),
        if_neg (show ¬b = 95 by simp [hb7]), if_pos hb7]
      unfold parseBooleanM at h
      dsimp only at h
      split at h
      · cases h
      · next hlen =>
        rw [if_neg hlen]
        split at h
        · split at h
          · cases h; rfl
          · cases h
        · cases h
    rw [if_neg hb7] at h
    by_cases hb8 : b = 44
    · rw [if_pos hb8] at h
      rw [if_pos (Or.inr (Or.inr (Or.inr (Or.inl hb8))))]
      unfold parseDoubleM at h
      cases hrl : readLine (b :: rest) 1 with
      | error e => rw [hrl] at h; cases h
      | ok p =>
        obtain ⟨line, next⟩ := p
        rw [hrl] at h
        dsimp only at h
        dsimp only
        split at h
        · split at h
          · cases h; rfl
          · split at h
            · cases h; rfl
            · cases h
        · cases h
    rw [if_neg hb8] at h
    by_cases hb9 : b = 40
    · rw [if_pos hb9] at h
      rw [if_pos (Or.inr (Or.inr (Or.inr (Or.inr hb9))))]
      unfold parseBigNumberM at h
      cases hrl : readLine (b :: rest) 1 with
      | error e => rw [hrl] at h; cases h
      | ok p =>
        obtain ⟨line, next⟩ := p
        rw [hrl] at h
        dsimp only at h
        dsimp only
        split at h
        · split at h
          · cases h
          · cases h; rfl
        · cases h
    rw [if_neg hb9] at h
    by_cases hb10 : b = 33
    · rw [if_pos hb10] at h
      rw [if_neg (show ¬(b = 43 ∨ b = 45 ∨ b = 58 ∨ b = 44 ∨ b = 40) by simp [hb10]),
        if_neg (show ¬b = 95 by simp [hb10]), if_neg (show ¬b = 35 by simp [hb10]),
        if_pos (Or.inr (Or.inl hb10))]
      unfold parseBulkErrorM at h
      cases hrl : readLine (b :: rest) 1 with
      | error e => rw [hrl] at h; cases h
      | ok p =>
        obtain ⟨line, next⟩ := p
        rw [hrl] at h
        dsimp only at h
        dsimp only
        cases hint : parseIntFromBytes line with
        | error e => rw [hint] at h; cases h
        | ok len =>
          rw [hint] at h
          dsimp only at h
          dsimp only
          by_cases hneg : len < 0
          · rw [if_pos hneg] at h; cases h
          · rw [if_neg hneg] at h
            rw [if_neg hneg]
            by_cases hlen : (b :: rest).length < next + len.toNat + 2
            · rw [if_pos hlen] at h; cases h
            · rw [if_neg hlen] at h
              rw [if_neg hlen]
              split at h
              · split at h
                · cases h; rfl
                · cases h
              · cases h
    rw [if_neg hb10] at h
    by_cases hb11 : b = 61
    · rw [if_pos hb11] at h
      rw [if_neg (show ¬(b = 43 ∨ b = 45 ∨ b = 58 ∨ b = 44 ∨ b = 40) by simp [hb11]),
        if_neg (show ¬b = 95 by simp [hb11]), if_neg (show ¬b = 35 by simp [hb11]),
        if_pos (Or.inr (Or.inr hb11))]
      unfold parseVerbatimM at h
      cases hrl : readLine (b :: rest) 1 with
      | error e => rw [hrl] at h; cases h
      | ok p =>
        obtain ⟨line, next⟩ := p
        rw [hrl] at h
        dsimp only at h
        dsimp only
        cases hint : parseIntFromBytes line with
        | error e => rw [hint] at h; cases h
        | ok len =>
          rw [hint] at h
          dsimp only at h
          dsimp only
          by_cases hneg : len < 0
          · rw [if_pos hneg] at h; cases h
          · rw [if_neg hneg] at h
            rw [if_neg hneg]
            by_cases hlen : (b :: rest).length < next + len.toNat + 2
            · rw [if_pos hlen] at h; cases h
            · rw [if_neg hlen] at h
              rw [if_neg hlen]
              split at h
              · split at h
                · cases h
                · split at h
                  · split at h
                    · cases h; rfl
                    · cases h
                  · cases h
              · cases h
    rw [if_neg hb11] at h
    by_cases hb12 : b = 37
    · rw [if_pos hb12] at h
      rw [if_neg (show ¬(b = 43 ∨ b = 45 ∨ b = 58 ∨ b = 44 ∨ b = 40) by simp [hb12]),
        if_neg (show ¬b = 95 by simp [hb12]), if_neg (show ¬b = 35 by simp [hb12]),
        if_neg (show ¬(b = 36 ∨ b = 33 ∨ b = 61) by simp [hb12]),
        if_neg (show ¬(b = 42 ∨ b = 126 ∨ b = 62) by simp [hb12]), if_pos hb12]
      unfold parseMapM at h
      cases hrl : readLine (b :: rest) 1 with
      | error e => rw [hrl] at h; cases h
      | ok p =>
        obtain ⟨line, next⟩ := p
        rw [hrl] at h
        dsimp only at h
        dsimp only
        cases hint : parseIntFromBytes line with
        | error e => rw [hint] at h; cases h
        | ok count =>
          rw [hint] at h
          dsimp only at h
          dsimp only
          by_cases hneg : count < 0
          · rw [if_pos hneg] at h; cases h
          · rw [if_neg hneg] at h
            rw [if_neg hneg]
            cases hps : parsePrs rec count.toNat ((b :: rest).drop next) with
            | error e => rw [hps] at h; cases h
            | ok q =>
              obtain ⟨ps, m⟩ := q
              rw [hps] at h
              dsimp only at h
              cases h
              rw [parsePrs_framePrs rec recF hag _ _ _ _ hps]
    rw [if_neg hb12] at h
    by_cases hb13 : b = 126
    · rw [if_pos hb13] at h
      rw [if_neg (show ¬(b = 43 ∨ b = 45 ∨ b = 58 ∨ b = 44 ∨ b = 40) by simp [hb13]),
        if_neg (show ¬b = 95 by simp [hb13]), if_neg (show ¬b = 35 by simp [hb13]),
        if_neg (show ¬(b = 36 ∨ b = 33 ∨ b = 61) by simp [hb13]),
        if_pos (Or.inr (Or.inl hb13))]
      unfold parseSetM at h
      cases hrl : readLine (b :: rest) 1 with
      | error e => rw [hrl] at h; cases h
      | ok p =>
        obtain ⟨line, next⟩ := p
        rw [hrl] at h
        dsimp only at h
        dsimp only
        cases hint : parseIntFromBytes line with
        | error e => rw [hint] at h; cases h
        | ok count =>
          rw [hint] at h
          dsimp only at h
          dsimp only
          by_cases hneg : count < 0
          · rw [if_pos hneg] at h; cases h
          · rw [if_neg hneg] at h
            rw [if_neg hneg]
            cases hcnt : parseCnt rec count.toNat ((b :: rest).drop next) with
            | error e => rw [hcnt] at h; cases h
            | ok q =>
              obtain ⟨elems, m⟩ := q
              rw [hcnt] at h
              dsimp only at h
              cases h
              rw [parseCnt_frameCnt rec recF hag _ _ _ _ hcnt]
    rw [if_neg hb13] at h
    by_cases hb14 : b = 62
    · rw [if_pos hb14] at h
      rw [if_neg (show ¬(b = 43 ∨ b = 45 ∨ b = 58 ∨ b = 44 ∨ b = 40) by simp [hb14]),
        if_neg (show ¬b = 95 by simp [hb14]), if_neg (show ¬b = 35 by simp [hb14]),
        if_neg (show ¬(b = 36 ∨ b = 33 ∨ b = 61) by simp [hb14]),
        if_pos (Or.inr (Or.inr hb14))]
      unfold parsePushM at h
      cases hrl : readLine (b :: rest) 1 with
      | error e => rw [hrl] at h; cases h
      | ok p =>
        obtain ⟨line, next⟩ := p
        rw [hrl] at h
        dsimp only at h
        dsimp only
        cases hint : parseIntFromBytes line with
        | error e => rw [hint] at h; cases h
        | ok count =>
          rw [hint] at h
          dsimp only at h
          dsimp only
          by_cases hneg : count < 0
          · rw [if_pos hneg] at h; cases h
          · rw [if_neg hneg] at h
            rw [if_neg hneg]
            by_cases hzero : count = 0
            · rw [if_pos hzero] at h; cases h
            · rw [if_neg hzero] at h
              cases hk : rec ((b :: rest).drop next) with
              | error e => rw [hk] at h; cases h
              | ok q =>
                obtain ⟨kindVal, n1⟩ := q
                rw [hk] at h
                dsimp only at h
                have hc : count.toNat = (count.toNat - 1) + 1 := by omega
                split at h
                · cases hcnt : parseCnt rec (count.toNat - 1)
                      ((b :: rest).drop (next + n1)) with
                  | error e => rw [hcnt] at h; cases h
                  | ok r =>
                    obtain ⟨data, m⟩ := r
                    rw [hcnt] at h
                    dsimp only at h
                    cases h
                    rw [hc, frameCnt_succ_of recF (count.toNat - 1) _ n1 m
                      (hag _ _ _ hk)
                      (by rw [List.drop_drop]
                          exact parseCnt_frameCnt rec recF hag _ _ _ _ hcnt)]
                    dsimp only
                    have harr : next + (n1 + m) = next + n1 + m := by omega
                    rw [harr]
                · split at h
                  · cases hcnt : parseCnt rec (count.toNat - 1)
                        ((b :: rest).drop (next + n1)) with
                    | error e => rw [hcnt] at h; cases h
                    | ok r =>
                      obtain ⟨data, m⟩ := r
                      rw [hcnt] at h
                      dsimp only at h
                      cases h
                      rw [hc, frameCnt_succ_of recF (count.toNat - 1) _ n1 m
                        (hag _ _ _ hk)
                        (by rw [List.drop_drop]
                            exact parseCnt_frameCnt rec recF hag _ _ _ _ hcnt)]
                      dsimp only
                      have harr : next + (n1 + m) = next + n1 + m := by omega
                      rw [harr]
                  · cases h
                · cases h
    rw [if_neg hb14] at h
    by_cases hb15 : b = 124
    · rw [if_pos hb15] at h
      rw [if_neg (show ¬(b = 43 ∨ b = 45 ∨ b = 58 ∨ b = 44 ∨ b = 40) by simp [hb15]),
        if_neg (show ¬b = 95 by simp [hb15]), if_neg (show ¬b = 35 by simp [hb15]),
        if_neg (show ¬(b = 36 ∨ b = 33 ∨ b = 61) by simp [hb15]),
        if_neg (show ¬(b = 42 ∨ b = 126 ∨ b = 62) by simp [hb15]),
        if_neg (show ¬b = 37 by simp [hb15]), if_pos hb15]
      unfold parseAttributeM at h
      cases hrl : readLine (b :: rest) 1 with
      | error e => rw [hrl] at h; cases h
      | ok p =>
        obtain ⟨line, next⟩ := p
        rw [hrl] at h
        dsimp only at h
        dsimp only
        cases hint : parseIntFromBytes line with
        | error e => rw [hint] at h; cases h
        | ok count =>
          rw [hint] at h
          dsimp only at h
          dsimp only
          by_cases hneg : count < 0
          · rw [if_pos hneg] at h; cases h
          · rw [if_neg hneg] at h
            rw [if_neg hneg]
            cases hps : parsePrs rec count.toNat ((b :: rest).drop next) with
            | error e => rw [hps] at h; cases h
            | ok q =>
              obtain ⟨ps, m⟩ := q
              rw [hps] at h
              dsimp only at h
              rw [parsePrs_framePrs rec recF hag _ _ _ _ hps]
              dsimp only
              cases hd : rec ((b :: rest).drop (next + m)) with
              | error e => rw [hd] at h; cases h
              | ok r =>
                obtain ⟨data, n2⟩ := r
                rw [hd] at h
                dsimp only at h
                cases h
                rw [hag _ _ _ hd]
    rw [if_neg hb15] at h
    cases h

/-- Every fuel level of the parser agrees with the same fuel level of
the frame length scan. -/
lemma parseAux_frameAux : ∀ fuel, AgreesLen (parseAux fuel) (frameAux fuel) := by
  intro fuel
  induction fuel with
  | zero => intro buf v n h; cases h
  | succ fuel ih => exact parseStep_frameStep _ _ ih

/-! ## Lemmas: encoder and decoder round trip -/

/-- Accumulator form of the digit fold. -/
lemma dval_acc (ds : List Nat) :
    ∀ a : Int, ds.foldl (fun (x : Int) (b : Nat) => 10 * x + ((b : Int) - 48)) a
      = a * 10 ^ ds.length + dval ds := by
  induction ds with
  | nil => intro a; simp [dval]
  | cons d t ih =>
    intro a
    simp only [List.foldl_cons, dval, List.length_cons]
    rw [ih, ih]
    ring

/-- Digit runs denote nonnegative values. -/
lemma dval_nonneg (ds : List Nat) (h : ∀ b ∈ ds, 48 ≤ b) : 0 ≤ dval ds := by
  induction ds with
  | nil => simp [dval]
  | cons d t ih =>
    have hd : (48 : Int) ≤ (d : Int) := by
      exact_mod_cast h d (List.mem_cons_self d t)
    have ht : 0 ≤ dval t := ih fun b hb => h b (List.mem_cons_of_mem d hb)
    have hcons : dval (d :: t) = ((d : Int) - 48) * 10 ^ t.length + dval t := by
      simp only [dval, List.foldl_cons]
      rw [dval_acc]
      simp only [dval]
      ring
    have hpow : (0 : Int) < 10 ^ t.length := pow_pos (by norm_num) _
    nlinarith

/-- Single-digit tail of the digit fold. -/
lemma dval_append_single (xs : List Nat) (d : Nat) :
    dval (xs ++ [d]) = 10 * dval xs + ((d : Int) - 48) := by
  simp only [dval, List.foldl_append, List.foldl_cons, List.foldl_nil]

/-- The checked accumulation loop evaluates any in-range digit run. -/
lemma intLoop_digits : ∀ (ds : List Nat) (acc : Int),
    (∀ b ∈ ds, 48 ≤ b ∧ b ≤ 57) → acc ≤ 0 →
    i64Min ≤ acc * 10 ^ ds.length - dval ds →
    intLoop ds acc = .ok (acc * 10 ^ ds.length - dval ds) := by
  intro ds
  induction ds with
  | nil => intro acc _ _ _; simp [intLoop, dval]
  | cons d t ih =>
    intro acc hd hacc hbound
    have hdig := hd d (List.mem_cons_self d t)
    have hdt : ∀ b ∈ t, 48 ≤ b ∧ b ≤ 57 := fun b hb => hd b (List.mem_cons_of_mem d hb)
    have hdigit : isDigitByte d = true := by
      unfold isDigitByte
      exact decide_eq_true ⟨hdig.1, hdig.2⟩
    have hpow : (0 : Int) < 10 ^ t.length := pow_pos (by norm_num) _
    have hdvt : 0 ≤ dval t := dval_nonneg t fun b hb => (hdt b hb).1
    have hdcons : dval (d :: t) = ((d : Int) - 48) * 10 ^ t.length + dval t := by
      simp only [dval, List.foldl_cons]
      rw [dval_acc]
      simp only [dval]
      ring
    have hd48 : (48 : Int) ≤ (d : Int) := by exact_mod_cast hdig.1
    have hd48b : (d : Int) ≤ 57 := by exact_mod_cast hdig.2
    have hlen : (d :: t).length = t.length + 1 := rfl
    rw [hlen] at hbound
    have hkey : (acc * 10 - ((d : Int) - 48)) * 10 ^ t.length - dval t
        = acc * 10 ^ (t.length + 1) - dval (d :: t) := by
      rw [hdcons]
      ring
    have hm_lo : i64Min ≤ acc * 10 := by
      have h1 : acc * 10 ^ (t.length + 1) ≤ acc * 10 := by
        have : acc * 10 ^ (t.length + 1) = (acc * 10) * 10 ^ t.length := by ring
        rw [this]
        nlinarith [mul_nonpos_of_nonpos_of_nonneg hacc (show (0:Int) ≤ 10 by norm_num)]
      nlinarith
    have hm2_le : acc * 10 - ((d : Int) - 48) ≤ 0 := by nlinarith [hd48]
    have hm2_lo : i64Min ≤ acc * 10 - ((d : Int) - 48) := by
      have h2 : (acc * 10 - ((d : Int) - 48)) * 10 ^ t.length
          ≤ acc * 10 - ((d : Int) - 48) := by
        nlinarith [hm2_le]
      nlinarith [hkey, hbound]
    rw [intLoop, if_pos hdigit]
    dsimp only
    rw [if_neg (by push_neg; exact ⟨hm_lo, by unfold i64Max; nlinarith [hacc]⟩)]
    rw [if_neg (by push_neg; exact ⟨hm2_lo, by unfold i64Max; nlinarith [hm2_le]⟩)]
    rw [ih (acc * 10 - ((d : Int) - 48)) hdt hm2_le (by rw [hkey]; rw [← hlen] at hbound; exact hbound)]
    rw [hkey]
    rw [hlen]

/-- wrap64 is the identity on the signed 64-bit range. -/
lemma wrap64_id (x : Int) (h1 : i64Min ≤ x) (h2 : x ≤ i64Max) : wrap64 x = x := by
  unfold wrap64 i64Min at *
  unfold i64Max at h2
  omega

/-- Every digit of a decimal expansion is an ASCII digit. -/
lemma natDecGo_digits : ∀ (fuel n : Nat), n < fuel →
    ∀ b ∈ natDecGo fuel n, 48 ≤ b ∧ b ≤ 57 := by
  intro fuel
  induction fuel with
  | zero => intro n h; omega
  | succ fuel ih =>
    intro n hn b hb
    unfold natDecGo at hb
    by_cases h10 : n < 10
    · rw [if_pos h10] at hb
      simp at hb
      omega
    · rw [if_neg h10] at hb
      rcases List.mem_append.mp hb with h | h
      · exact ih (n / 10) (by omega) b h
      · simp at h
        omega

/-- A decimal expansion is nonempty. -/
lemma natDecGo_ne_nil : ∀ (fuel n : Nat), n < fuel → natDecGo fuel n ≠ [] := by
  intro fuel
  induction fuel with
  | zero => intro n h; omega
  | succ fuel ih =>
    intro n hn
    unfold natDecGo
    by_cases h10 : n < 10
    · simp [h10]
    · simp [h10]

/-- A decimal expansion denotes its number. -/
lemma natDecGo_dval : ∀ (fuel n : Nat), n < fuel → dval (natDecGo fuel n) = n := by
  intro fuel
  induction fuel with
  | zero => intro n h; omega
  | succ fuel ih =>
    intro n hn
    unfold natDecGo
    by_cases h10 : n < 10
    · rw [if_pos h10]
      simp only [dval, List.foldl_cons, List.foldl_nil]
      push_cast
      ring
    · rw [if_neg h10]
      have hdiv : n / 10 < n := Nat.div_lt_self (by omega) (by omega)
      rw [dval_append_single, ih (n / 10) (by omega)]
      have hmod : (((48 + n % 10 : Nat) : Int) - 48) = ((n % 10 : Nat) : Int) := by
        push_cast
        ring
      rw [hmod]
      have := Nat.div_add_mod n 10
      push_cast
      omega

/-- The integer parser inverts the decimal formatter on any value the
encoder can put in a length or count header. -/
lemma parseIntFromBytes_natDec (n : Nat) (h : (n : Int) ≤ i64Max) :
    parseIntFromBytes (natDec n) = .ok (n : Int) := by
  have hdig := natDecGo_digits (n + 1) n (Nat.lt_succ_self n)
  have hne := natDecGo_ne_nil (n + 1) n (Nat.lt_succ_self n)
  have hval := natDecGo_dval (n + 1) n (Nat.lt_succ_self n)
  cases hlist : natDecGo (n + 1) n with
  | nil => exact absurd hlist hne
  | cons b0 rest =>
    rw [hlist] at hdig hval
    have hb0 := hdig b0 (List.mem_cons_self b0 rest)
    unfold natDec
    rw [hlist, parseIntFromBytes]
    rw [if_neg (show ¬(b0 = 45 ∨ b0 = 43) by omega)]
    rw [if_neg (show ¬(b0 :: rest).isEmpty = true by simp)]
    have hloop := intLoop_digits (b0 :: rest) 0 hdig (le_refl 0)
      (by
        have hn0 : (0 : Int) ≤ (n : Int) := Int.natCast_nonneg n
        rw [hval]
        unfold i64Min
        unfold i64Max at h
        omega)
    rw [hval] at hloop
    rw [hloop]
    dsimp only
    rw [if_neg (show ¬b0 = 45 by omega)]
    have hz : (-(0 * 10 ^ (b0 :: rest).length - (n : Int))) = (n : Int) := by ring
    rw [hz, wrap64_id _ (by unfold i64Min; omega) h]

/-- Index shift across a known leading chunk. -/
lemma getD_pre (l t : List Nat) (k d : Nat) :
    (l ++ t).getD (l.length + k) d = t.getD k d := by
  rw [List.getD_append_right _ _ _ _ (Nat.le_add_right _ _), Nat.add_sub_cancel_left]

/-- memchr finds the first carriage return after a CR-free chunk. -/
lemma memchrCr_append (l r : List Nat) (h : (13 : Nat) ∉ l) :
    memchrCr (l ++ 13 :: r) = some l.length := by
  induction l with
  | nil => simp [memchrCr]
  | cons b t ih =>
    have hb : b ≠ 13 := fun hb => h (hb ▸ List.mem_cons_self b t)
    show (if b = 13 then some 0 else (memchrCr (t ++ 13 :: r)).map (· + 1))
      = some (b :: t).length
    rw [if_neg hb, ih fun hm => h (List.mem_cons_of_mem b hm)]
    rfl

/-- read_line on a well-formed header line: one type byte, a CR-free
line, CRLF, then anything. -/
lemma readLine_header (x : Nat) (l t : List Nat) (hl : (13 : Nat) ∉ l) :
    readLine (x :: (l ++ 13 :: 10 :: t)) 1 = .ok (l, l.length + 3) := by
  have hdrop : (x :: (l ++ 13 :: 10 :: t)).drop 1 = l ++ 13 :: 10 :: t := rfl
  have hmem : memchrCr ((x :: (l ++ 13 :: 10 :: t)).drop 1) = some l.length := by
    rw [hdrop]
    exact memchrCr_append l (10 :: t) hl
  have hget : (x :: (l ++ 13 :: 10 :: t)).getD (1 + l.length + 1) 0 = 10 := by
    have hshape : x :: (l ++ 13 :: 10 :: t) = (x :: l ++ [13]) ++ 10 :: t := by simp
    have hidx : 1 + l.length + 1 = (x :: l ++ [13]).length + 0 := by
      simp only [List.length_append, List.length_cons, List.length_nil]
      omega
    rw [hshape, hidx, getD_pre]
    rfl
  unfold readLine findCrlf
  rw [hmem]
  dsimp only
  rw [if_pos (show 1 + l.length + 1 < (x :: (l ++ 13 :: 10 :: t)).length by
    simp only [List.length_cons, List.length_append]
    omega)]
  rw [if_pos hget]
  dsimp only
  rw [hdrop, show 1 + l.length - 1 = l.length by omega, List.take_left]
  rw [show 1 + l.length + 2 = l.length + 3 by omega]

/-- Byte length of one encoded argument. -/
lemma encodeArg_length (a : List Nat) :
    (encodeArg a).length = (natDec a.length).length + 3 + a.length + 2 := by
  simp only [encodeArg, List.length_cons, List.length_append, List.length_nil]
  omega

/-- The bulk-string parser inverts one encoded argument placed at the
front of the buffer. -/
lemma parseBulkStringM_encoded (a rest2 : List Nat) (ha : (a.length : Int) ≤ i64Max) :
    parseBulkStringM (36 :: (natDec a.length ++ 13 :: 10 :: (a ++ 13 :: 10 :: rest2)))
      = .ok (.bulkString a, (natDec a.length).length + 3 + a.length + 2) := by
  have hdigits := natDecGo_digits (a.length + 1) a.length (Nat.lt_succ_self _)
  have h13 : (13 : Nat) ∉ natDec a.length := fun hm => by
    have := hdigits 13 hm
    omega
  have hrl := readLine_header 36 (natDec a.length) (a ++ 13 :: 10 :: rest2) h13
  have hget1 : (36 :: (natDec a.length ++ 13 :: 10 :: (a ++ 13 :: 10 :: rest2))).getD
      ((natDec a.length).length + 3 + a.length) 0 = 13 := by
    have hshape : 36 :: (natDec a.length ++ 13 :: 10 :: (a ++ 13 :: 10 :: rest2))
        = (36 :: natDec a.length ++ 13 :: 10 :: a) ++ 13 :: 10 :: rest2 := by simp
    have hidx : (natDec a.length).length + 3 + a.length
        = (36 :: natDec a.length ++ 13 :: 10 :: a).length + 0 := by
      simp only [List.length_append, List.length_cons]
      omega
    rw [hshape, hidx, getD_pre]
    rfl
  have hget2 : (36 :: (natDec a.length ++ 13 :: 10 :: (a ++ 13 :: 10 :: rest2))).getD
      ((natDec a.length).length + 3 + a.length + 1) 0 = 10 := by
    have hshape : 36 :: (natDec a.length ++ 13 :: 10 :: (a ++ 13 :: 10 :: rest2))
        = (36 :: natDec a.length ++ 13 :: 10 :: a) ++ 13 :: 10 :: rest2 := by simp
    have hidx : (natDec a.length).length + 3 + a.length + 1
        = (36 :: natDec a.length ++ 13 :: 10 :: a).length + 1 := by
      simp only [List.length_append, List.length_cons]
      omega
    rw [hshape, hidx, getD_pre]
    rfl
  have hdrop2 : (36 :: (natDec a.length ++ 13 :: 10 :: (a ++ 13 :: 10 :: rest2))).drop
      ((natDec a.length).length + 3) = a ++ 13 :: 10 :: rest2 := by
    have hshape : 36 :: (natDec a.length ++ 13 :: 10 :: (a ++ 13 :: 10 :: rest2))
        = (36 :: natDec a.length ++ [13, 10]) ++ (a ++ 13 :: 10 :: rest2) := by simp
    have hidx : (natDec a.length).length + 3 = (36 :: natDec a.length ++ [13, 10]).length := by
      simp only [List.length_append, List.length_cons, List.length_nil]
      try omega
    rw [hshape, hidx, List.drop_left]
  unfold parseBulkStringM
  rw [hrl]
  dsimp only
  rw [parseIntFromBytes_natDec a.length ha]
  dsimp only
  rw [if_neg (not_lt.mpr (Int.natCast_nonneg a.length))]
  simp only [Int.toNat_ofNat]
  rw [if_neg (show ¬(36 :: (natDec a.length ++ 13 :: 10 :: (a ++ 13 :: 10 :: rest2))).length
      < (natDec a.length).length + 3 + a.length + 2 by
    simp only [List.length_cons, List.length_append]
    omega)]
  rw [if_pos ⟨hget1, hget2⟩]
  rw [hdrop2, List.take_left]

/-- One dispatch step on an encoded argument followed by any suffix. -/
lemma parseStep_encodeArg (rec : List Nat → Except Err (RespValue × Nat))
    (a rest2 : List Nat) (ha : (a.length : Int) ≤ i64Max) :
    parseStep rec (encodeArg a ++ rest2)
      = .ok (.bulkString a, (encodeArg a).length) := by
  have hshape : encodeArg a ++ rest2
      = 36 :: (natDec a.length ++ 13 :: 10 :: (a ++ 13 :: 10 :: rest2)) := by
    simp [encodeArg]
  rw [hshape]
  unfold parseStep
  dsimp only
  rw [if_neg (by decide), if_neg (by decide), if_neg (by decide), if_pos rfl]
  rw [parseBulkStringM_encoded a rest2 ha, encodeArg_length]

/-- The element loop inverts a run of encoded arguments. -/
lemma parseCnt_encodeArgs (f : Nat) (hf : 1 ≤ f) :
    ∀ (args : List (List Nat)) (tail : List Nat),
    (∀ a ∈ args, (a.length : Int) ≤ i64Max) →
    parseCnt (parseAux f) args.length (args.flatMap encodeArg ++ tail)
      = .ok (args.map RespValue.bulkString, (args.flatMap encodeArg).length) := by
  intro args
  induction args with
  | nil => intro tail _; simp [parseCnt]
  | cons a t ih =>
    intro tail hargs
    obtain ⟨f', rfl⟩ : ∃ f', f = f' + 1 := ⟨f - 1, by omega⟩
    have hshape : (a :: t).flatMap encodeArg ++ tail
        = encodeArg a ++ (t.flatMap encodeArg ++ tail) := by
      simp [List.flatMap_cons, List.append_assoc]
    have hstep : parseAux (f' + 1) (encodeArg a ++ (t.flatMap encodeArg ++ tail))
        = .ok (.bulkString a, (encodeArg a).length) :=
      parseStep_encodeArg (parseAux f') a _ (hargs a (List.mem_cons_self a t))
    show parseCnt (parseAux (f' + 1)) (t.length + 1) ((a :: t).flatMap encodeArg ++ tail)
      = _
    rw [hshape, parseCnt, hstep]
    dsimp only
    rw [List.drop_left]
    rw [ih tail fun b hb => hargs b (List.mem_cons_of_mem a hb)]
    dsimp only
    simp [List.flatMap_cons]

/-- C5: encoder/decoder round trip.  For any argument list whose count
and element lengths fit in the i64 headers the encoder writes, parsing
the encoded command succeeds, consumes exactly the whole encoded buffer,
and returns the arguments as an array of bulk strings in order. -/
theorem C5_encode_decode_roundtrip (args : List (List Nat))
    (hc : (args.length : Int) ≤ i64Max)
    (ha : ∀ a ∈ args, (a.length : Int) ≤ i64Max) :
    parse (encodeCommand args)
      = .ok (.array (args.map RespValue.bulkString), (encodeCommand args).length) := by
  have hdigits := natDecGo_digits (args.length + 1) args.length (Nat.lt_succ_self _)
  have h13 : (13 : Nat) ∉ natDec args.length := fun hm => by
    have := hdigits 13 hm
    omega
  have hunf : parse (encodeCommand args)
      = parseStep (parseAux (encodeCommand args).length) (encodeCommand args) := rfl
  rw [hunf]
  have hshape : encodeCommand args
      = 42 :: (natDec args.length ++ 13 :: 10 :: args.flatMap encodeArg) := rfl
  rw [hshape]
  unfold parseStep
  dsimp only
  rw [if_neg (by decide), if_neg (by decide), if_neg (by decide), if_neg (by decide),
    if_pos rfl]
  unfold parseArrayM
  rw [readLine_header 42 (natDec args.length) (args.flatMap encodeArg) h13]
  dsimp only
  rw [parseIntFromBytes_natDec args.length hc]
  dsimp only
  rw [if_neg (not_lt.mpr (Int.natCast_nonneg args.length))]
  simp only [Int.toNat_ofNat]
  have hdrop : (42 :: (natDec args.length ++ 13 :: 10 :: args.flatMap encodeArg)).drop
      ((natDec args.length).length + 3) = args.flatMap encodeArg := by
    have hs : 42 :: (natDec args.length ++ 13 :: 10 :: args.flatMap encodeArg)
        = (42 :: natDec args.length ++ [13, 10]) ++ args.flatMap encodeArg := by simp
    have hi : (natDec args.length).length + 3
        = (42 :: natDec args.length ++ [13, 10]).length := by
      simp only [List.length_append, List.length_cons, List.length_nil]
      try omega
    rw [hs, hi, List.drop_left]
  rw [hdrop]
  have hcnt := parseCnt_encodeArgs
    ((42 :: (natDec args.length ++ 13 :: 10 :: args.flatMap encodeArg)).length)
    (by simp) args [] ha
  rw [List.append_nil] at hcnt
  rw [hcnt]
  dsimp only
  have hlen : (natDec args.length).length + 3 + (args.flatMap encodeArg).length
      = (42 :: (natDec args.length ++ 13 :: 10 :: args.flatMap encodeArg)).length := by
    simp only [List.length_cons, List.length_append]
    omega
  rw [hlen]

/-- Witness for C5 at a concrete two-argument command: GET key encodes
to 22 bytes and parses back to the argument array. -/
theorem C5_witness : parse (encodeCommand [strBytes "GET", strBytes "key"])
    = .ok (.array [.bulkString (strBytes "GET"), .bulkString (strBytes "key")], 22) := by
  have h := C5_encode_decode_roundtrip [strBytes "GET", strBytes "key"]
    (by decide) (by decide)
  exact h.trans (by rfl)

/-- Stripping a literal head from that head followed by anything. -/
lemma stripPre_append (p l : List Char) : stripPre p (p ++ l) = some l := by
  induction p with
  | nil => rfl
  | cons c t ih => simp [stripPre, ih]

/-- Splitting at the first separator of a separator-free head followed
by the separator and a tail. -/
lemma splitOnce_append (sep : Char) (a r : List Char) (h : sep ∉ a) :
    splitOnceChar sep (a ++ sep :: r) = some (a, r) := by
  induction a with
  | nil => simp [splitOnceChar]
  | cons c t ih =>
    have hc : ¬(c = sep) := fun hcc => h (by simp [hcc])
    have ht : sep ∉ t := fun hm => h (List.mem_cons_of_mem _ hm)
    simp [splitOnceChar, hc, ih ht]

/-! ## Lemmas: fused parser bounds -/

/-- Unfolding parse_to_python on a nonempty buffer. -/
lemma parseToPython_cons (b : Nat) (rest : List Nat) (dec : Bool) :
    parseToPython (b :: rest) dec
      = pInnerStep (pInnerAux (b :: rest).length) (b :: rest) 0 dec := rfl

/-- Above the depth bound the fused parser fails before looking at the
buffer. -/
lemma pInnerAux_depth_exceeded (fuel : Nat) (buf : List Nat) (d : Nat) (dec : Bool)
    (hf : 1 ≤ fuel) (hd : maxParseDepth < d) :
    pInnerAux fuel buf d dec = .error (.protocol .depthExceeded) := by
  obtain ⟨f, rfl⟩ : ∃ f, fuel = f + 1 := ⟨fuel - 1, by omega⟩
  show pInnerStep (pInnerAux f) buf d dec = _
  unfold pInnerStep
  rw [if_pos hd]

/-- Line reading on a one-element star header. -/
lemma fusedReadLine_star1 (t : List Nat) :
    fusedReadLine (42 :: 49 :: 13 :: 10 :: t) 1 = .ok ([49], 4) := by
  unfold fusedReadLine
  rw [show (42 : Nat) :: 49 :: 13 :: 10 :: t = 42 :: ([49] ++ 13 :: 10 :: t) from rfl,
    readLine_header 42 [49] t (by decide)]
  rfl

/-- The element loop at count one. -/
lemma pList_one (rec : List Nat → Nat → Bool → Except FusedErr (PyObj × Nat))
    (buf : List Nat) (d : Nat) (dec : Bool) :
    pList rec 1 buf d dec = match rec buf d dec with
      | .error e => .error e
      | .ok (o, n) => .ok ([o], n + 0) := rfl

/-- One fused dispatch step on a one-element star header below the
depth bound: parse the single child one level deeper. -/
lemma pInnerStep_star1 (rec : List Nat → Nat → Bool → Except FusedErr (PyObj × Nat))
    (t : List Nat) (d : Nat) (dec : Bool) (hd : d ≤ maxParseDepth) :
    pInnerStep rec (42 :: 49 :: 13 :: 10 :: t) d dec
      = match pList rec 1 t (d + 1) dec with
        | .error e => .error e
        | .ok (os, m) => .ok (.pyList os, 4 + m) := by
  unfold pInnerStep
  rw [if_neg (not_lt.mpr hd)]
  dsimp only
  rw [if_neg (by decide), if_neg (by decide), if_neg (by decide), if_neg (by decide),
    if_pos rfl]
  rw [fusedReadLine_star1]
  dsimp only
  rw [show fusedParseInt [49] = Except.ok (1 : Int) from rfl]
  dsimp only
  rw [if_neg (by decide : ¬(1 : Int) < 0)]
  rw [show validatedCount 1 = Except.ok 1 from rfl]
  dsimp only
  rw [show (42 :: 49 :: 13 :: 10 :: t).drop 4 = t from rfl]

/-- Byte length of the star chain. -/
lemma starChain_length : ∀ k, (starChain k).length = 4 * k := by
  intro k
  induction k with
  | zero => rfl
  | succ k ih =>
    show (42 :: 49 :: 13 :: 10 :: starChain k).length = 4 * (k + 1)
    simp only [List.length_cons, ih]
    omega

/-- A star chain reaching past the depth bound makes the fused parser
fail with DepthExceeded, at any starting depth. -/
lemma starChain_depth_error : ∀ (k : Nat), ∀ (f d : Nat) (dec : Bool),
    maxParseDepth + 1 ≤ d + k → k + 1 ≤ f →
    pInnerAux f (starChain k) d dec = .error (.protocol .depthExceeded) := by
  intro k
  induction k with
  | zero =>
    intro f d dec hd hf
    exact pInnerAux_depth_exceeded f (starChain 0) d dec (by omega) (by omega)
  | succ k ih =>
    intro f d dec hd hf
    obtain ⟨f', rfl⟩ : ∃ f', f = f' + 1 := ⟨f - 1, by omega⟩
    by_cases hdd : maxParseDepth < d
    · exact pInnerAux_depth_exceeded (f' + 1) _ d dec (by omega) hdd
    · push_neg at hdd
      have hrec : pInnerAux f' (starChain k) (d + 1) dec
          = .error (.protocol .depthExceeded) := by
        by_cases hk : k = 0
        · subst hk
          exact pInnerAux_depth_exceeded f' (starChain 0) (d + 1) dec (by omega) (by omega)
        · exact ih f' (d + 1) dec (by omega) (by omega)
      show pInnerStep (pInnerAux f') (starChain (k + 1)) d dec = _
      rw [show starChain (k + 1) = 42 :: 49 :: 13 :: 10 :: starChain k from rfl]
      rw [pInnerStep_star1 _ _ _ _ hdd]
      rw [pList_one, hrec]

/-- A star chain inside the depth bound parses to the nested
one-element lists around the trailing integer frame. -/
lemma starChain_ok : ∀ (k : Nat), ∀ (f d : Nat) (dec : Bool),
    d + k ≤ maxParseDepth → k + 1 ≤ f →
    pInnerAux f (starChain k ++ strBytes ":1\r\n") d dec
      = .ok (nestedPy k, 4 * k + 4) := by
  intro k
  induction k with
  | zero =>
    intro f d dec hd hf
    obtain ⟨f', rfl⟩ : ∃ f', f = f' + 1 := ⟨f - 1, by omega⟩
    show pInnerStep (pInnerAux f') (starChain 0 ++ strBytes ":1\r\n") d dec = _
    unfold pInnerStep
    rw [if_neg (not_lt.mpr (by omega : d ≤ maxParseDepth))]
    rfl
  | succ k ih =>
    intro f d dec hd hf
    obtain ⟨f', rfl⟩ : ∃ f', f = f' + 1 := ⟨f - 1, by omega⟩
    have hrec := ih f' (d + 1) dec (by omega) (by omega)
    show pInnerStep (pInnerAux f') (starChain (k + 1) ++ strBytes ":1\r\n") d dec = _
    rw [show starChain (k + 1) ++ strBytes ":1\r\n"
        = 42 :: 49 :: 13 :: 10 :: (starChain k ++ strBytes ":1\r\n") from rfl]
    rw [pInnerStep_star1 _ _ _ _ (by omega)]
    rw [pList_one, hrec]
    dsimp only
    rw [show nestedPy (k + 1) = PyObj.pyList [nestedPy k] from rfl]
    rw [show 4 + (4 * k + 4 + 0) = 4 * (k + 1) + 4 from by omega]

/-! ## Lemmas: parser restartability (extension stability) -/

/-- A found carriage return keeps its position under appended bytes. -/
lemma memchrCr_extend (l ext : List Nat) :
    ∀ p, memchrCr l = some p → memchrCr (l ++ ext) = some p := by
  induction l with
  | nil => intro p h; cases h
  | cons b t ih =>
    intro p h
    unfold memchrCr at h ⊢
    rw [List.cons_append]
    dsimp only
    by_cases hb : b = 13
    · rw [if_pos hb] at h ⊢
      exact h
    · rw [if_neg hb] at h ⊢
      cases hm : memchrCr t with
      | none =>
        rw [hm] at h
        simp at h
      | some q =>
        rw [hm] at h
        rw [ih q hm]
        exact h

/-- CRLF search is stable under appended bytes whenever it did not
report Incomplete. -/
lemma findCrlf_extend (buf ext : List Nat) (off : Nat)
    (h : findCrlf buf off ≠ .error .incomplete) :
    findCrlf (buf ++ ext) off = findCrlf buf off := by
  unfold findCrlf at h ⊢
  cases hm : memchrCr (buf.drop off) with
  | none =>
    rw [hm] at h
    exact absurd rfl h
  | some pos =>
    rw [hm] at h
    dsimp only at h
    have hoff : off ≤ buf.length := by
      by_contra hc
      push_neg at hc
      rw [List.drop_eq_nil_of_le (by omega)] at hm
      cases hm
    have hdrop : (buf ++ ext).drop off = buf.drop off ++ ext :=
      List.drop_append_of_le_length hoff
    rw [hdrop, memchrCr_extend (buf.drop off) ext pos hm]
    dsimp only
    by_cases hlt : off + pos + 1 < buf.length
    · rw [if_pos hlt, if_pos (show off + pos + 1 < (buf ++ ext).length by
        simp only [List.length_append]
        omega)]
      rw [List.getD_append _ _ _ _ (by omega : off + pos + 1 < buf.length)]
    · rw [if_neg hlt] at h
      exact absurd rfl h

/-- Line reading is stable under appended bytes whenever it did not
report Incomplete. -/
lemma readLine_extend (buf ext : List Nat) (off : Nat)
    (h : readLine buf off ≠ .error .incomplete) :
    readLine (buf ++ ext) off = readLine buf off := by
  unfold readLine at h ⊢
  cases hf : findCrlf buf off with
  | error e =>
    rw [hf] at h
    dsimp only at h
    have hne : findCrlf buf off ≠ .error .incomplete := by
      rw [hf]
      intro hh
      injection hh with h1
      exact h (by rw [h1])
    rw [findCrlf_extend buf ext off hne, hf]
  | ok cr =>
    have hne : findCrlf buf off ≠ .error .incomplete := by
      rw [hf]
      intro hh
      cases hh
    rw [findCrlf_extend buf ext off hne, hf]
    dsimp only
    have hb := findCrlf_bounds buf off cr hf
    rw [List.drop_append_of_le_length (by omega : off ≤ buf.length)]
    rw [List.take_append_of_le_length (by rw [List.length_drop]; omega)]

/-- Simple-string parsing is stable under appended bytes. -/
lemma parseSimpleStringM_extend (buf ext : List Nat)
    (h : parseSimpleStringM buf ≠ .error .incomplete) :
    parseSimpleStringM (buf ++ ext) = parseSimpleStringM buf := by
  unfold parseSimpleStringM at h ⊢
  cases hrl : readLine buf 1 with
  | error e =>
    rw [hrl] at h
    dsimp only at h
    rw [readLine_extend buf ext 1
      (by rw [hrl]; intro hh; injection hh with h1; exact h (by rw [h1])), hrl]
  | ok p =>
    rw [readLine_extend buf ext 1 (by rw [hrl]; intro hh; cases hh), hrl]

/-- Simple-error parsing is stable under appended bytes. -/
lemma parseSimpleErrorM_extend (buf ext : List Nat)
    (h : parseSimpleErrorM buf ≠ .error .incomplete) :
    parseSimpleErrorM (buf ++ ext) = parseSimpleErrorM buf := by
  unfold parseSimpleErrorM at h ⊢
  cases hrl : readLine buf 1 with
  | error e =>
    rw [hrl] at h
    dsimp only at h
    rw [readLine_extend buf ext 1
      (by rw [hrl]; intro hh; injection hh with h1; exact h (by rw [h1])), hrl]
  | ok p =>
    rw [readLine_extend buf ext 1 (by rw [hrl]; intro hh; cases hh), hrl]

/-- Integer parsing is stable under appended bytes. -/
lemma parseIntegerM_extend (buf ext : List Nat)
    (h : parseIntegerM buf ≠ .error .incomplete) :
    parseIntegerM (buf ++ ext) = parseIntegerM buf := by
  unfold parseIntegerM at h ⊢
  cases hrl : readLine buf 1 with
  | error e =>
    rw [hrl] at h
    dsimp only at h
    rw [readLine_extend buf ext 1
      (by rw [hrl]; intro hh; injection hh with h1; exact h (by rw [h1])), hrl]
  | ok p =>
    rw [readLine_extend buf ext 1 (by rw [hrl]; intro hh; cases hh), hrl]

/-- Double parsing is stable under appended bytes. -/
lemma parseDoubleM_extend (buf ext : List Nat)
    (h : parseDoubleM buf ≠ .error .incomplete) :
    parseDoubleM (buf ++ ext) = parseDoubleM buf := by
  unfold parseDoubleM at h ⊢
  cases hrl : readLine buf 1 with
  | error e =>
    rw [hrl] at h
    dsimp only at h
    rw [readLine_extend buf ext 1
      (by rw [hrl]; intro hh; injection hh with h1; exact h (by rw [h1])), hrl]
  | ok p =>
    rw [readLine_extend buf ext 1 (by rw [hrl]; intro hh; cases hh), hrl]

/-- Big-number parsing is stable under appended bytes. -/
lemma parseBigNumberM_extend (buf ext : List Nat)
    (h : parseBigNumberM buf ≠ .error .incomplete) :
    parseBigNumberM (buf ++ ext) = parseBigNumberM buf := by
  unfold parseBigNumberM at h ⊢
  cases hrl : readLine buf 1 with
  | error e =>
    rw [hrl] at h
    dsimp only at h
    rw [readLine_extend buf ext 1
      (by rw [hrl]; intro hh; injection hh with h1; exact h (by rw [h1])), hrl]
  | ok p =>
    rw [readLine_extend buf ext 1 (by rw [hrl]; intro hh; cases hh), hrl]

/-- Null parsing is stable under appended bytes. -/
lemma parseNullM_extend (buf ext : List Nat)
    (h : parseNullM buf ≠ .error .incomplete) :
    parseNullM (buf ++ ext) = parseNullM buf := by
  unfold parseNullM at h ⊢
  by_cases hl : buf.length < 3
  · rw [if_pos hl] at h
    exact absurd rfl h
  · rw [if_neg hl]
    rw [if_neg (show ¬(buf ++ ext).length < 3 by simp only [List.length_append]; omega)]
    rw [List.getD_append _ _ _ _ (by omega : 1 < buf.length),
      List.getD_append _ _ _ _ (by omega : 2 < buf.length)]

/-- Boolean parsing is stable under appended bytes. -/
lemma parseBooleanM_extend (buf ext : List Nat)
    (h : parseBooleanM buf ≠ .error .incomplete) :
    parseBooleanM (buf ++ ext) = parseBooleanM buf := by
  unfold parseBooleanM at h ⊢
  by_cases hl : buf.length < 4
  · rw [if_pos hl] at h
    exact absurd rfl h
  · rw [if_neg hl]
    rw [if_neg (show ¬(buf ++ ext).length < 4 by simp only [List.length_append]; omega)]
    rw [List.getD_append _ _ _ _ (by omega : 1 < buf.length),
      List.getD_append _ _ _ _ (by omega : 2 < buf.length),
      List.getD_append _ _ _ _ (by omega : 3 < buf.length)]

/-- Bulk-string parsing is stable under appended bytes. -/
lemma parseBulkStringM_extend (buf ext : List Nat)
    (h : parseBulkStringM buf ≠ .error .incomplete) :
    parseBulkStringM (buf ++ ext) = parseBulkStringM buf := by
  unfold parseBulkStringM at h ⊢
  cases hrl : readLine buf 1 with
  | error e =>
    rw [hrl] at h
    dsimp only at h
    rw [readLine_extend buf ext 1
      (by rw [hrl]; intro hh; injection hh with h1; exact h (by rw [h1])), hrl]
  | ok p =>
    obtain ⟨line, next⟩ := p
    rw [readLine_extend buf ext 1 (by rw [hrl]; intro hh; cases hh), hrl]
    rw [hrl] at h
    dsimp only at h ⊢
    cases hint : parseIntFromBytes line with
    | error e2 => rfl
    | ok len =>
      rw [hint] at h
      dsimp only at h ⊢
      by_cases hneg : len < 0
      · rw [if_pos hneg, if_pos hneg]
      · rw [if_neg hneg] at h
        rw [if_neg hneg, if_neg hneg]
        have hb := readLine_bounds buf 1 line next hrl
        by_cases hlen : buf.length < next + len.toNat + 2
        · rw [if_pos hlen] at h
          exact absurd rfl h
        · rw [if_neg hlen] at h
          rw [if_neg (show ¬(buf ++ ext).length < next + len.toNat + 2 by
            simp only [List.length_append]; omega), if_neg hlen]
          rw [List.getD_append _ _ _ _ (by omega : next + len.toNat < buf.length),
            List.getD_append _ _ _ _ (by omega : next + len.toNat + 1 < buf.length),
            List.drop_append_of_le_length (by omega : next ≤ buf.length),
            List.take_append_of_le_length (by rw [List.length_drop]; omega)]

/-- Bulk-error parsing is stable under appended bytes. -/
lemma parseBulkErrorM_extend (buf ext : List Nat)
    (h : parseBulkErrorM buf ≠ .error .incomplete) :
    parseBulkErrorM (buf ++ ext) = parseBulkErrorM buf := by
  unfold parseBulkErrorM at h ⊢
  cases hrl : readLine buf 1 with
  | error e =>
    rw [hrl] at h
    dsimp only at h
    rw [readLine_extend buf ext 1
      (by rw [hrl]; intro hh; injection hh with h1; exact h (by rw [h1])), hrl]
  | ok p =>
    obtain ⟨line, next⟩ := p
    rw [readLine_extend buf ext 1 (by rw [hrl]; intro hh; cases hh), hrl]
    rw [hrl] at h
    dsimp only at h ⊢
    cases hint : parseIntFromBytes line with
    | error e2 => rfl
    | ok len =>
      rw [hint] at h
      dsimp only at h ⊢
      by_cases hneg : len < 0
      · rw [if_pos hneg, if_pos hneg]
      · rw [if_neg hneg] at h
        rw [if_neg hneg, if_neg hneg]
        have hb := readLine_bounds buf 1 line next hrl
        by_cases hlen : buf.length < next + len.toNat + 2
        · rw [if_pos hlen] at h
          exact absurd rfl h
        · rw [if_neg hlen] at h
          rw [if_neg (show ¬(buf ++ ext).length < next + len.toNat + 2 by
            simp only [List.length_append]; omega), if_neg hlen]
          rw [List.getD_append _ _ _ _ (by omega : next + len.toNat < buf.length),
            List.getD_append _ _ _ _ (by omega : next + len.toNat + 1 < buf.length),
            List.drop_append_of_le_length (by omega : next ≤ buf.length),
            List.take_append_of_le_length (by rw [List.length_drop]; omega)]

/-- Verbatim-string parsing is stable under appended bytes. -/
lemma parseVerbatimM_extend (buf ext : List Nat)
    (h : parseVerbatimM buf ≠ .error .incomplete) :
    parseVerbatimM (buf ++ ext) = parseVerbatimM buf := by
  unfold parseVerbatimM at h ⊢
  cases hrl : readLine buf 1 with
  | error e =>
    rw [hrl] at h
    dsimp only at h
    rw [readLine_extend buf ext 1
      (by rw [hrl]; intro hh; injection hh with h1; exact h (by rw [h1])), hrl]
  | ok p =>
    obtain ⟨line, next⟩ := p
    rw [readLine_extend buf ext 1 (by rw [hrl]; intro hh; cases hh), hrl]
    rw [hrl] at h
    dsimp only at h ⊢
    cases hint : parseIntFromBytes line with
    | error e2 => rfl
    | ok len =>
      rw [hint] at h
      dsimp only at h ⊢
      by_cases hneg : len < 0
      · rw [if_pos hneg, if_pos hneg]
      · rw [if_neg hneg] at h
        rw [if_neg hneg, if_neg hneg]
        have hb := readLine_bounds buf 1 line next hrl
        by_cases hlen : buf.length < next + len.toNat + 2
        · rw [if_pos hlen] at h
          exact absurd rfl h
        · rw [if_neg hlen] at h
          rw [if_neg (show ¬(buf ++ ext).length < next + len.toNat + 2 by
            simp only [List.length_append]; omega), if_neg hlen]
          rw [List.getD_append _ _ _ _ (by omega : next + len.toNat < buf.length),
            List.getD_append _ _ _ _ (by omega : next + len.toNat + 1 < buf.length),
            List.drop_append_of_le_length (by omega : next ≤ buf.length),
            List.take_append_of_le_length (by rw [List.length_drop]; omega)]

/-- The element loop is stable under appended bytes, given a
well-consuming element parser p that is simulated on extended buffers
by q. -/
lemma parseCnt_extend (p q : List Nat → Except Err (RespValue × Nat))
    (hpc : ConsumesOk p)
    (hP : ∀ b2 e2, p b2 ≠ .error .incomplete → q (b2 ++ e2) = p b2) :
    ∀ (k : Nat) (buf ext : List Nat), parseCnt p k buf ≠ .error .incomplete →
      parseCnt q k (buf ++ ext) = parseCnt p k buf := by
  intro k
  induction k with
  | zero => intro buf ext h; rfl
  | succ k ih =>
    intro buf ext h
    unfold parseCnt at h ⊢
    cases h1 : p buf with
    | error e =>
      rw [h1] at h
      dsimp only at h
      rw [hP buf ext
        (by rw [h1]; intro hh; injection hh with h2; exact h (by rw [h2])), h1]
    | ok pr =>
      obtain ⟨v, n⟩ := pr
      rw [hP buf ext (by rw [h1]; intro hh; cases hh), h1]
      rw [h1] at h
      dsimp only at h ⊢
      have hn := hpc buf v n h1
      rw [List.drop_append_of_le_length (by omega : n ≤ buf.length)]
      cases h2 : parseCnt p k (buf.drop n) with
      | error e2 =>
        rw [h2] at h
        dsimp only at h
        rw [ih (buf.drop n) ext
          (by rw [h2]; intro hh; injection hh with h3; exact h (by rw [h3])), h2]
      | ok pr2 =>
        rw [ih (buf.drop n) ext (by rw [h2]; intro hh; cases hh), h2]

/-- The pair loop is stable under appended bytes, with the same
simulation hypotheses. -/
lemma parsePrs_extend (p q : List Nat → Except Err (RespValue × Nat))
    (hpc : ConsumesOk p)
    (hP : ∀ b2 e2, p b2 ≠ .error .incomplete → q (b2 ++ e2) = p b2) :
    ∀ (k : Nat) (buf ext : List Nat), parsePrs p k buf ≠ .error .incomplete →
      parsePrs q k (buf ++ ext) = parsePrs p k buf := by
  intro k
  induction k with
  | zero => intro buf ext h; rfl
  | succ k ih =>
    intro buf ext h
    unfold parsePrs at h ⊢
    cases h1 : p buf with
    | error e =>
      rw [h1] at h
      dsimp only at h
      rw [hP buf ext
        (by rw [h1]; intro hh; injection hh with h2; exact h (by rw [h2])), h1]
    | ok pr =>
      obtain ⟨kv, n1⟩ := pr
      rw [hP buf ext (by rw [h1]; intro hh; cases hh), h1]
      rw [h1] at h
      dsimp only at h ⊢
      have hn1 := hpc buf kv n1 h1
      rw [List.drop_append_of_le_length (by omega : n1 ≤ buf.length)]
      cases h2 : p (buf.drop n1) with
      | error e2 =>
        rw [h2] at h
        dsimp only at h
        rw [hP (buf.drop n1) ext
          (by rw [h2]; intro hh; injection hh with h3; exact h (by rw [h3])), h2]
      | ok pr2 =>
        obtain ⟨vv, n2⟩ := pr2
        rw [hP (buf.drop n1) ext (by rw [h2]; intro hh; cases hh), h2]
        rw [h2] at h
        dsimp only at h ⊢
        have hn2 := hpc (buf.drop n1) vv n2 h2
        rw [List.length_drop] at hn2
        rw [List.drop_append_of_le_length (by omega : n1 + n2 ≤ buf.length)]
        cases h3 : parsePrs p k (buf.drop (n1 + n2)) with
        | error e3 =>
          rw [h3] at h
          dsimp only at h
          rw [ih (buf.drop (n1 + n2)) ext
            (by rw [h3]; intro hh; injection hh with h4; exact h (by rw [h4])), h3]
        | ok pr3 =>
          rw [ih (buf.drop (n1 + n2)) ext (by rw [h3]; intro hh; cases hh), h3]

/-- Array parsing is stable under appended bytes. -/
lemma parseArrayM_extend (p q : List Nat → Except Err (RespValue × Nat))
    (hpc : ConsumesOk p)
    (hP : ∀ b2 e2, p b2 ≠ .error .incomplete → q (b2 ++ e2) = p b2)
    (buf ext : List Nat)
    (h : parseArrayM p buf ≠ .error .incomplete) :
    parseArrayM q (buf ++ ext) = parseArrayM p buf := by
  unfold parseArrayM at h ⊢
  cases hrl : readLine buf 1 with
  | error e =>
    rw [hrl] at h
    dsimp only at h
    rw [readLine_extend buf ext 1
      (by rw [hrl]; intro hh; injection hh with h1; exact h (by rw [h1])), hrl]
  | ok pr =>
    obtain ⟨line, next⟩ := pr
    rw [readLine_extend buf ext 1 (by rw [hrl]; intro hh; cases hh), hrl]
    rw [hrl] at h
    dsimp only at h ⊢
    cases hint : parseIntFromBytes line with
    | error e2 => rfl
    | ok count =>
      rw [hint] at h
      dsimp only at h ⊢
      by_cases hneg : count < 0
      · rw [if_pos hneg, if_pos hneg]
      · rw [if_neg hneg] at h
        rw [if_neg hneg, if_neg hneg]
        have hb := readLine_bounds buf 1 line next hrl
        rw [List.drop_append_of_le_length (by omega : next ≤ buf.length)]
        cases hc : parseCnt p count.toNat (buf.drop next) with
        | error e3 =>
          rw [hc] at h
          dsimp only at h
          rw [parseCnt_extend p q hpc hP count.toNat (buf.drop next) ext
            (by rw [hc]; intro hh; injection hh with h3; exact h (by rw [h3])), hc]
        | ok pr3 =>
          rw [parseCnt_extend p q hpc hP count.toNat (buf.drop next) ext
            (by rw [hc]; intro hh; cases hh), hc]

/-- Set parsing is stable under appended bytes. -/
lemma parseSetM_extend (p q : List Nat → Except Err (RespValue × Nat))
    (hpc : ConsumesOk p)
    (hP : ∀ b2 e2, p b2 ≠ .error .incomplete → q (b2 ++ e2) = p b2)
    (buf ext : List Nat)
    (h : parseSetM p buf ≠ .error .incomplete) :
    parseSetM q (buf ++ ext) = parseSetM p buf := by
  unfold parseSetM at h ⊢
  cases hrl : readLine buf 1 with
  | error e =>
    rw [hrl] at h
    dsimp only at h
    rw [readLine_extend buf ext 1
      (by rw [hrl]; intro hh; injection hh with h1; exact h (by rw [h1])), hrl]
  | ok pr =>
    obtain ⟨line, next⟩ := pr
    rw [readLine_extend buf ext 1 (by rw [hrl]; intro hh; cases hh), hrl]
    rw [hrl] at h
    dsimp only at h ⊢
    cases hint : parseIntFromBytes line with
    | error e2 => rfl
    | ok count =>
      rw [hint] at h
      dsimp only at h ⊢
      by_cases hneg : count < 0
      · rw [if_pos hneg, if_pos hneg]
      · rw [if_neg hneg] at h
        rw [if_neg hneg, if_neg hneg]
        have hb := readLine_bounds buf 1 line next hrl
        rw [List.drop_append_of_le_length (by omega : next ≤ buf.length)]
        cases hc : parseCnt p count.toNat (buf.drop next) with
        | error e3 =>
          rw [hc] at h
          dsimp only at h
          rw [parseCnt_extend p q hpc hP count.toNat (buf.drop next) ext
            (by rw [hc]; intro hh; injection hh with h3; exact h (by rw [h3])), hc]
        | ok pr3 =>
          rw [parseCnt_extend p q hpc hP count.toNat (buf.drop next) ext
            (by rw [hc]; intro hh; cases hh), hc]

/-- Map parsing is stable under appended bytes. -/
lemma parseMapM_extend (p q : List Nat → Except Err (RespValue × Nat))
    (hpc : ConsumesOk p)
    (hP : ∀ b2 e2, p b2 ≠ .error .incomplete → q (b2 ++ e2) = p b2)
    (buf ext : List Nat)
    (h : parseMapM p buf ≠ .error .incomplete) :
    parseMapM q (buf ++ ext) = parseMapM p buf := by
  unfold parseMapM at h ⊢
  cases hrl : readLine buf 1 with
  | error e =>
    rw [hrl] at h
    dsimp only at h
    rw [readLine_extend buf ext 1
      (by rw [hrl]; intro hh; injection hh with h1; exact h (by rw [h1])), hrl]
  | ok pr =>
    obtain ⟨line, next⟩ := pr
    rw [readLine_extend buf ext 1 (by rw [hrl]; intro hh; cases hh), hrl]
    rw [hrl] at h
    dsimp only at h ⊢
    cases hint : parseIntFromBytes line with
    | error e2 => rfl
    | ok count =>
      rw [hint] at h
      dsimp only at h ⊢
      by_cases hneg : count < 0
      · rw [if_pos hneg, if_pos hneg]
      · rw [if_neg hneg] at h
        rw [if_neg hneg, if_neg hneg]
        have hb := readLine_bounds buf 1 line next hrl
        rw [List.drop_append_of_le_length (by omega : next ≤ buf.length)]
        cases hc : parsePrs p count.toNat (buf.drop next) with
        | error e3 =>
          rw [hc] at h
          dsimp only at h
          rw [parsePrs_extend p q hpc hP count.toNat (buf.drop next) ext
            (by rw [hc]; intro hh; injection hh with h3; exact h (by rw [h3])), hc]
        | ok pr3 =>
          rw [parsePrs_extend p q hpc hP count.toNat (buf.drop next) ext
            (by rw [hc]; intro hh; cases hh), hc]

/-- Push parsing is stable under appended bytes. -/
lemma parsePushM_extend (p q : List Nat → Except Err (RespValue × Nat))
    (hpc : ConsumesOk p)
    (hP : ∀ b2 e2, p b2 ≠ .error .incomplete → q (b2 ++ e2) = p b2)
    (buf ext : List Nat)
    (h : parsePushM p buf ≠ .error .incomplete) :
    parsePushM q (buf ++ ext) = parsePushM p buf := by
  unfold parsePushM at h ⊢
  cases hrl : readLine buf 1 with
  | error e =>
    rw [hrl] at h
    dsimp only at h
    rw [readLine_extend buf ext 1
      (by rw [hrl]; intro hh; injection hh with h1; exact h (by rw [h1])), hrl]
  | ok pr =>
    obtain ⟨line, next⟩ := pr
    rw [readLine_extend buf ext 1 (by rw [hrl]; intro hh; cases hh), hrl]
    rw [hrl] at h
    dsimp only at h ⊢
    cases hint : parseIntFromBytes line with
    | error e2 => rfl
    | ok count =>
      rw [hint] at h
      dsimp only at h ⊢
      by_cases hneg : count < 0
      · rw [if_pos hneg, if_pos hneg]
      · rw [if_neg hneg] at h
        rw [if_neg hneg, if_neg hneg]
        by_cases hz : count = 0
        · rw [if_pos hz, if_pos hz]
        · rw [if_neg hz] at h
          rw [if_neg hz, if_neg hz]
          have hb := readLine_bounds buf 1 line next hrl
          rw [List.drop_append_of_le_length (by omega : next ≤ buf.length)]
          cases h1 : p (buf.drop next) with
          | error e3 =>
            rw [h1] at h
            dsimp only at h
            rw [hP (buf.drop next) ext
              (by rw [h1]; intro hh; injection hh with h3; exact h (by rw [h3])), h1]
          | ok pr1 =>
            obtain ⟨kindVal, n1⟩ := pr1
            rw [hP (buf.drop next) ext (by rw [h1]; intro hh; cases hh), h1]
            rw [h1] at h
            dsimp only at h ⊢
            have hn1 := hpc (buf.drop next) kindVal n1 h1
            rw [List.length_drop] at hn1
            cases kindVal
            · rename_i s
              dsimp only at h ⊢
              rw [List.drop_append_of_le_length (by omega : next + n1 ≤ buf.length)]
              cases hc : parseCnt p (count.toNat - 1) (buf.drop (next + n1)) with
              | error e4 =>
                rw [hc] at h
                dsimp only at h
                rw [parseCnt_extend p q hpc hP (count.toNat - 1) (buf.drop (next + n1)) ext
                  (by rw [hc]; intro hh; injection hh with h4; exact h (by rw [h4])), hc]
              | ok pr2 =>
                rw [parseCnt_extend p q hpc hP (count.toNat - 1) (buf.drop (next + n1)) ext
                  (by rw [hc]; intro hh; cases hh), hc]
            · rfl
            · rfl
            · rename_i bk
              dsimp only at h ⊢
              by_cases hu : utf8Valid bk = true
              · rw [if_pos hu] at h
                rw [if_pos hu, if_pos hu]
                rw [List.drop_append_of_le_length (by omega : next + n1 ≤ buf.length)]
                cases hc : parseCnt p (count.toNat - 1) (buf.drop (next + n1)) with
                | error e4 =>
                  rw [hc] at h
                  dsimp only at h
                  rw [parseCnt_extend p q hpc hP (count.toNat - 1) (buf.drop (next + n1)) ext
                    (by rw [hc]; intro hh; injection hh with h4; exact h (by rw [h4])), hc]
                | ok pr2 =>
                  rw [parseCnt_extend p q hpc hP (count.toNat - 1) (buf.drop (next + n1)) ext
                    (by rw [hc]; intro hh; cases hh), hc]
              · rw [if_neg hu, if_neg hu]
            all_goals rfl

/-- Attribute parsing is stable under appended bytes. -/
lemma parseAttributeM_extend (p q : List Nat → Except Err (RespValue × Nat))
    (hpc : ConsumesOk p)
    (hP : ∀ b2 e2, p b2 ≠ .error .incomplete → q (b2 ++ e2) = p b2)
    (buf ext : List Nat)
    (h : parseAttributeM p buf ≠ .error .incomplete) :
    parseAttributeM q (buf ++ ext) = parseAttributeM p buf := by
  unfold parseAttributeM at h ⊢
  cases hrl : readLine buf 1 with
  | error e =>
    rw [hrl] at h
    dsimp only at h
    rw [readLine_extend buf ext 1
      (by rw [hrl]; intro hh; injection hh with h1; exact h (by rw [h1])), hrl]
  | ok pr =>
    obtain ⟨line, next⟩ := pr
    rw [readLine_extend buf ext 1 (by rw [hrl]; intro hh; cases hh), hrl]
    rw [hrl] at h
    dsimp only at h ⊢
    cases hint : parseIntFromBytes line with
    | error e2 => rfl
    | ok count =>
      rw [hint] at h
      dsimp only at h ⊢
      by_cases hneg : count < 0
      · rw [if_pos hneg, if_pos hneg]
      · rw [if_neg hneg] at h
        rw [if_neg hneg, if_neg hneg]
        have hb := readLine_bounds buf 1 line next hrl
        rw [List.drop_append_of_le_length (by omega : next ≤ buf.length)]
        cases hc : parsePrs p count.toNat (buf.drop next) with
        | error e3 =>
          rw [hc] at h
          dsimp only at h
          rw [parsePrs_extend p q hpc hP count.toNat (buf.drop next) ext
            (by rw [hc]; intro hh; injection hh with h3; exact h (by rw [h3])), hc]
        | ok pr3 =>
          obtain ⟨ps, m⟩ := pr3
          rw [parsePrs_extend p q hpc hP count.toNat (buf.drop next) ext
            (by rw [hc]; intro hh; cases hh), hc]
          rw [hc] at h
          dsimp only at h ⊢
          have hm := parsePrs_consumed p hpc count.toNat (buf.drop next) ps m hc
          rw [List.length_drop] at hm
          rw [List.drop_append_of_le_length (by omega : next + m ≤ buf.length)]
          cases h2 : p (buf.drop (next + m)) with
          | error e4 =>
            rw [h2] at h
            dsimp only at h
            rw [hP (buf.drop (next + m)) ext
              (by rw [h2]; intro hh; injection hh with h4; exact h (by rw [h4])), h2]
          | ok pr4 =>
            rw [hP (buf.drop (next + m)) ext (by rw [h2]; intro hh; cases hh), h2]

/-- One dispatch step is stable under appended bytes, given a
well-consuming child parser p simulated on extended buffers by q. -/
lemma parseStep_extend (p q : List Nat → Except Err (RespValue × Nat))
    (hpc : ConsumesOk p)
    (hP : ∀ b2 e2, p b2 ≠ .error .incomplete → q (b2 ++ e2) = p b2)
    (buf ext : List Nat)
    (h : parseStep p buf ≠ .error .incomplete) :
    parseStep q (buf ++ ext) = parseStep p buf := by
  cases buf with
  | nil => exact absurd rfl h
  | cons b rest =>
    have hcons : (b :: rest) ++ ext = b :: (rest ++ ext) := rfl
    unfold parseStep at h ⊢
    rw [hcons]
    dsimp only at h ⊢
    by_cases hb1 : b = 43
    · rw [if_pos hb1] at h
      rw [if_pos hb1, if_pos hb1]
      exact parseSimpleStringM_extend (b :: rest) ext h
    rw [if_neg hb1] at h
    rw [if_neg hb1, if_neg hb1]
    by_cases hb2 : b = 45
    · rw [if_pos hb2] at h
      rw [if_pos hb2, if_pos hb2]
      exact parseSimpleErrorM_extend (b :: rest) ext h
    rw [if_neg hb2] at h
    rw [if_neg hb2, if_neg hb2]
    by_cases hb3 : b = 58
    · rw [if_pos hb3] at h
      rw [if_pos hb3, if_pos hb3]
      exact parseIntegerM_extend (b :: rest) ext h
    rw [if_neg hb3] at h
    rw [if_neg hb3, if_neg hb3]
    by_cases hb4 : b = 36
    · rw [if_pos hb4] at h
      rw [if_pos hb4, if_pos hb4]
      exact parseBulkStringM_extend (b :: rest) ext h
    rw [if_neg hb4] at h
    rw [if_neg hb4, if_neg hb4]
    by_cases hb5 : b = 42
    · rw [if_pos hb5] at h
      rw [if_pos hb5, if_pos hb5]
      exact parseArrayM_extend p q hpc hP (b :: rest) ext h
    rw [if_neg hb5] at h
    rw [if_neg hb5, if_neg hb5]
    by_cases hb6 : b = 95
    · rw [if_pos hb6] at h
      rw [if_pos hb6, if_pos hb6]
      exact parseNullM_extend (b :: rest) ext h
    rw [if_neg hb6] at h
    rw [if_neg hb6, if_neg hb6]
    by_cases hb7 : b = 35
    · rw [if_pos hb7] at h
      rw [if_pos hb7, if_pos hb7]
      exact parseBooleanM_extend (b :: rest) ext h
    rw [if_neg hb7] at h
    rw [if_neg hb7, if_neg hb7]
    by_cases hb8 : b = 44
    · rw [if_pos hb8] at h
      rw [if_pos hb8, if_pos hb8]
      exact parseDoubleM_extend (b :: rest) ext h
    rw [if_neg hb8] at h
    rw [if_neg hb8, if_neg hb8]
    by_cases hb9 : b = 40
    · rw [if_pos hb9] at h
      rw [if_pos hb9, if_pos hb9]
      exact parseBigNumberM_extend (b :: rest) ext h
    rw [if_neg hb9] at h
    rw [if_neg hb9, if_neg hb9]
    by_cases hb10 : b = 33
    · rw [if_pos hb10] at h
      rw [if_pos hb10, if_pos hb10]
      exact parseBulkErrorM_extend (b :: rest) ext h
    rw [if_neg hb10] at h
    rw [if_neg hb10, if_neg hb10]
    by_cases hb11 : b = 61
    · rw [if_pos hb11] at h
      rw [if_pos hb11, if_pos hb11]
      exact parseVerbatimM_extend (b :: rest) ext h
    rw [if_neg hb11] at h
    rw [if_neg hb11, if_neg hb11]
    by_cases hb12 : b = 37
    · rw [if_pos hb12] at h
      rw [if_pos hb12, if_pos hb12]
      exact parseMapM_extend p q hpc hP (b :: rest) ext h
    rw [if_neg hb12] at h
    rw [if_neg hb12, if_neg hb12]
    by_cases hb13 : b = 126
    · rw [if_pos hb13] at h
      rw [if_pos hb13, if_pos hb13]
      exact parseSetM_extend p q hpc hP (b :: rest) ext h
    rw [if_neg hb13] at h
    rw [if_neg hb13, if_neg hb13]
    by_cases hb14 : b = 62
    · rw [if_pos hb14] at h
      rw [if_pos hb14, if_pos hb14]
      exact parsePushM_extend p q hpc hP (b :: rest) ext h
    rw [if_neg hb14] at h
    rw [if_neg hb14, if_neg hb14]
    by_cases hb15 : b = 124
    · rw [if_pos hb15] at h
      rw [if_pos hb15, if_pos hb15]
      exact parseAttributeM_extend p q hpc hP (b :: rest) ext h
    rw [if_neg hb15] at h
    rw [if_neg hb15, if_neg hb15]

/-- The fuel-indexed parser is stable under appended bytes and larger
fuel whenever it did not report Incomplete. -/
lemma parseAux_extend : ∀ f g, f ≤ g → ∀ buf ext,
    parseAux f buf ≠ .error .incomplete →
    parseAux g (buf ++ ext) = parseAux f buf := by
  intro f
  induction f with
  | zero =>
    intro g hg buf ext h
    exact absurd rfl h
  | succ f ih =>
    intro g hg buf ext h
    obtain ⟨g2, rfl⟩ : ∃ g2, g = g2 + 1 := ⟨g - 1, by omega⟩
    show parseStep (parseAux g2) (buf ++ ext) = parseStep (parseAux f) buf
    exact parseStep_extend (parseAux f) (parseAux g2) (parseAux_consumes f)
      (fun b2 e2 hb2 => ih g2 (by omega) b2 e2 hb2) buf ext h

/-! ## Claim theorems -/

/-- C1 counterexample: the claim says the kind is selected from the
first whitespace-delimited token of the message.  On the real server
error BUSYKEY Target key name already exists, the first token is
BUSYKEY, which is none of the named kinds, so the token rule yields
Other(BUSYKEY); the code classifies by starts_with and yields Busy. -/
theorem C1_first_token_counterexample :
    (fromErrorMsg (chars "BUSYKEY Target key name already exists")).1 = .busy ∧
    fromErrorMsgSpecWords (chars "BUSYKEY Target key name already exists") =
      .other (chars "BUSYKEY") ∧
    RedisErrorKind.busy ≠ .other (chars "BUSYKEY") := by
  refine ⟨by decide, by decide, by decide⟩

/-- C1 amended: from_error_msg selects the kind by prefix matching the
message against the known kind tokens (so a first token that strictly
extends a known prefix still maps to that kind); for a message matching
no known prefix the kind is Other of the first whitespace-delimited
token; messages of the form MOVED slot addr and ASK slot addr parse the
slot as a 16-bit unsigned integer and keep the address opaque, and any
malformed MOVED or ASK message degrades to Other(MOVED) or
Other(ASK). -/
theorem C1_kind_classification :
    (∀ (slotStr : List Char) (slot : Nat) (addr : List Char), ' ' ∉ slotStr →
      parseU16 slotStr = some slot →
      fromErrorMsg (chars "MOVED " ++ (slotStr ++ ' ' :: addr)) =
        (.moved slot addr, chars "MOVED " ++ (slotStr ++ ' ' :: addr))) ∧
    (∀ (slotStr : List Char) (slot : Nat) (addr : List Char), ' ' ∉ slotStr →
      parseU16 slotStr = some slot →
      fromErrorMsg (chars "ASK " ++ (slotStr ++ ' ' :: addr)) =
        (.ask slot addr, chars "ASK " ++ (slotStr ++ ' ' :: addr))) ∧
    (∀ (slotStr addr : List Char), ' ' ∉ slotStr → parseU16 slotStr = none →
      (fromErrorMsg (chars "MOVED " ++ (slotStr ++ ' ' :: addr))).1 =
        .other (chars "MOVED")) ∧
    (∀ (slotStr addr : List Char), ' ' ∉ slotStr → parseU16 slotStr = none →
      (fromErrorMsg (chars "ASK " ++ (slotStr ++ ' ' :: addr))).1 = .other (chars "ASK")) ∧
    (∀ rest : List Char, splitOnceChar ' ' rest = none →
      (fromErrorMsg (chars "MOVED " ++ rest)).1 = .other (chars "MOVED")) ∧
    (∀ rest : List Char, splitOnceChar ' ' rest = none →
      (fromErrorMsg (chars "ASK " ++ rest)).1 = .other (chars "ASK")) ∧
    (∀ s : List Char, (fromErrorMsg (chars "WRONGTYPE" ++ s)).1 = .wrongType) ∧
    (∀ s : List Char, (fromErrorMsg (chars "CLUSTERDOWN" ++ s)).1 = .clusterDown) ∧
    (∀ s : List Char, (fromErrorMsg (chars "LOADING" ++ s)).1 = .loading) ∧
    (∀ s : List Char, (fromErrorMsg (chars "READONLY" ++ s)).1 = .readOnly) ∧
    (∀ s : List Char, (fromErrorMsg (chars "NOSCRIPT" ++ s)).1 = .noScript) ∧
    (∀ s : List Char, (fromErrorMsg (chars "BUSY" ++ s)).1 = .busy) ∧
    (∀ s : List Char, (fromErrorMsg (chars "TRYAGAIN" ++ s)).1 = .tryAgain) ∧
    (∀ s : List Char, (fromErrorMsg (chars "ERR" ++ s)).1 = .err) ∧
    (∀ msg : List Char,
      stripPre (chars "MOVED ") msg = none → stripPre (chars "ASK ") msg = none →
      startsWithChars (chars "WRONGTYPE") msg = false →
      startsWithChars (chars "CLUSTERDOWN") msg = false →
      startsWithChars (chars "LOADING") msg = false →
      startsWithChars (chars "READONLY") msg = false →
      startsWithChars (chars "NOSCRIPT") msg = false →
      startsWithChars (chars "BUSY") msg = false →
      startsWithChars (chars "TRYAGAIN") msg = false →
      startsWithChars (chars "ERR") msg = false →
      (fromErrorMsg msg).1 =
        .other (if (firstToken msg).isEmpty then chars "UNKNOWN" else firstToken msg)) := by
  refine ⟨?_, ?_, ?_, ?_, ?_, ?_, fun s => rfl, fun s => rfl, fun s => rfl, fun s => rfl,
    fun s => rfl, fun s => rfl, fun s => rfl, fun s => rfl, ?_⟩
  · intro slotStr slot addr hsp hp
    have h1 : stripPre (chars "MOVED ") (chars "MOVED " ++ (slotStr ++ ' ' :: addr)) =
        some (slotStr ++ ' ' :: addr) := stripPre_append _ _
    simp only [fromErrorMsg, h1, splitOnce_append ' ' slotStr addr hsp, hp]
  · intro slotStr slot addr hsp hp
    have h0 : stripPre (chars "MOVED ") (chars "ASK " ++ (slotStr ++ ' ' :: addr)) = none := rfl
    have h1 : stripPre (chars "ASK ") (chars "ASK " ++ (slotStr ++ ' ' :: addr)) =
        some (slotStr ++ ' ' :: addr) := stripPre_append _ _
    simp only [fromErrorMsg, h0, h1, splitOnce_append ' ' slotStr addr hsp, hp]
  · intro slotStr addr hsp hp
    have h1 : stripPre (chars "MOVED ") (chars "MOVED " ++ (slotStr ++ ' ' :: addr)) =
        some (slotStr ++ ' ' :: addr) := stripPre_append _ _
    simp only [fromErrorMsg, h1, splitOnce_append ' ' slotStr addr hsp, hp]
  · intro slotStr addr hsp hp
    have h0 : stripPre (chars "MOVED ") (chars "ASK " ++ (slotStr ++ ' ' :: addr)) = none := rfl
    have h1 : stripPre (chars "ASK ") (chars "ASK " ++ (slotStr ++ ' ' :: addr)) =
        some (slotStr ++ ' ' :: addr) := stripPre_append _ _
    simp only [fromErrorMsg, h0, h1, splitOnce_append ' ' slotStr addr hsp, hp]
  · intro rest hsplit
    have h1 : stripPre (chars "MOVED ") (chars "MOVED " ++ rest) = some rest :=
      stripPre_append _ _
    simp only [fromErrorMsg, h1, hsplit]
  · intro rest hsplit
    have h0 : stripPre (chars "MOVED ") (chars "ASK " ++ rest) = none := rfl
    have h1 : stripPre (chars "ASK ") (chars "ASK " ++ rest) = some rest :=
      stripPre_append _ _
    simp only [fromErrorMsg, h0, h1, hsplit]
  · intro msg hm ha h1 h2 h3 h4 h5 h6 h7 h8
    simp only [fromErrorMsg, hm, ha, h1, h2, h3, h4, h5, h6, h7, h8,
      Bool.false_eq_true, if_false]

/-- C1 witness: the structured and degraded redirect conjuncts applied
at the concrete messages of the source unit tests. -/
theorem C1_witness :
    fromErrorMsg (chars "MOVED " ++ (chars "3999" ++ ' ' :: chars "127.0.0.1:6381")) =
      (.moved 3999 (chars "127.0.0.1:6381"),
        chars "MOVED " ++ (chars "3999" ++ ' ' :: chars "127.0.0.1:6381")) ∧
    (fromErrorMsg (chars "MOVED " ++ (chars "abc" ++ ' ' :: chars "127.0.0.1:6381"))).1 =
      .other (chars "MOVED") :=
  ⟨C1_kind_classification.1 (chars "3999") 3999 (chars "127.0.0.1:6381")
      (by decide) (by decide),
    C1_kind_classification.2.2.1 (chars "abc") (chars "127.0.0.1:6381")
      (by decide) (by decide)⟩

/-- C3: for every byte buffer on which parse succeeds, resp_frame_len
returns Ok with exactly the bytes_consumed value returned by parse. -/
theorem C3_frame_length_agreement (buf : List Nat) (v : RespValue) (n : Nat)
    (h : parse buf = .ok (v, n)) : respFrameLen buf = .ok n :=
  parseAux_frameAux _ buf v n h

/-- C3 witness: the agreement at a concrete two-element array frame. -/
theorem C3_witness : respFrameLen (strBytes "*2\r\n$3\r\nfoo\r\n$3\r\nbar\r\n") = .ok 22 :=
  C3_frame_length_agreement (strBytes "*2\r\n$3\r\nfoo\r\n$3\r\nbar\r\n")
    (.array [.bulkString (strBytes "foo"), .bulkString (strBytes "bar")]) 22 (by rfl)

/-- C10: whenever parse succeeds it consumes at least one byte and at
most the whole buffer, so the suffix slice from the consumed index that
read_response takes afterwards is always in bounds. -/
theorem C10_consumed_bounds (buf : List Nat) (v : RespValue) (n : Nat)
    (h : parse buf = .ok (v, n)) : 1 ≤ n ∧ n ≤ buf.length :=
  parseAux_consumes _ buf v n h

/-- C10 witness: the bounds at a concrete parsed frame. -/
theorem C10_witness : 1 ≤ 5 ∧ 5 ≤ (strBytes "+OK\r\n").length :=
  C10_consumed_bounds (strBytes "+OK\r\n") (.simpleString (strBytes "OK")) 5 (by rfl)

/-- C2: the claim says a connection whose command failed with an I/O or
protocol error is discarded and can never be received by a later
checkout.  Evaluating the pool model at the failing scenario: a fresh
connection 7 is checked out from an empty pool of size 8, its command
fails, the guard is dropped; return_connection ignores the failure, the
idle queue becomes the one-element queue holding 7, and the next
checkout receives connection 7 again. -/
theorem C2_errored_connection_reaches_next_checkout :
    guardDropAfterCommand true false false 8 [] 7 = [7] ∧
    takeHealthyConnection (fun _ => false)
      (guardDropAfterCommand true false false 8 [] 7) = (some 7, []) :=
  ⟨rfl, rfl⟩

/-- C6: RESP integer parsing rejects empty digit strings and non-digit
bytes, and the most negative i64 parses successfully; but at exactly
i64::MAX + 1 the checked negative-domain accumulation reaches i64::MIN
without error and the final unchecked negation overflows, so parse
returns Ok(i64::MIN) under release wrapping semantics instead of the
protocol error the claim (and the integer_overflow unit test of the
source) requires.  One step further, i64::MAX + 2, does fail with the
overflow protocol error. -/
theorem C6_integer_parsing_behaviour :
    parse (strBytes ":-9223372036854775808\r\n") =
      .ok (.integer (-9223372036854775808), 23) ∧
    parse (strBytes ":9223372036854775808\r\n") =
      .ok (.integer (-9223372036854775808), 22) ∧
    parse (strBytes ":9223372036854775809\r\n") = .error (.protocol .integerOverflow) ∧
    parseIntFromBytes [] = .error (.protocol .emptyInteger) ∧
    parseIntFromBytes [45] = .error (.protocol .noDigits) ∧
    parseIntFromBytes [43] = .error (.protocol .noDigits) ∧
    (∀ (b0 : Nat) (rest : List Nat) (bad : Nat),
      bad ∈ (if b0 = 45 ∨ b0 = 43 then rest else b0 :: rest) →
      isDigitByte bad = false →
      ∃ e, parseIntFromBytes (b0 :: rest) = .error (.protocol e)) := by
  refine ⟨rfl, rfl, rfl, rfl, rfl, rfl, ?_⟩
  intro b0 rest bad hmem hbad
  show ∃ e, parseIntFromBytes (b0 :: rest) = .error (.protocol e)
  unfold parseIntFromBytes
  by_cases hsign : b0 = 45 ∨ b0 = 43
  · rw [if_pos hsign] at hmem
    by_cases hempty : rest.isEmpty
    · exact ⟨.noDigits, by simp [hsign, hempty]⟩
    · rcases intLoop_error_of_bad rest 0 ⟨bad, hmem, hbad⟩ with ⟨e, he⟩
      exact ⟨e, by simp [hsign, hempty, he]⟩
  · rw [if_neg hsign] at hmem
    have hempty : ((b0 :: rest).isEmpty) = false := rfl
    rcases intLoop_error_of_bad (b0 :: rest) 0 ⟨bad, hmem, hbad⟩ with ⟨e, he⟩
    exact ⟨e, by simp [hsign, he]⟩

/-- C6 witness: the non-digit rejection applied at the concrete input
12a3 from the unit tests. -/
theorem C6_witness : ∃ e, parseIntFromBytes (strBytes "12a3") = .error (.protocol e) :=
  C6_integer_parsing_behaviour.2.2.2.2.2.2 49 [50, 97, 51] 97 (by decide) (by decide)

/-- C8: hash-tag locality.  Any two keys sharing the same brace-
delimited tag land in the same hash slot, where the tag is the span
between the first open brace and the first close brace after it and
that span is nonempty: keys are written as head, open brace, tag,
close brace, tail with no open brace in the head and no close brace in
the tag. -/
theorem C8_hash_tag_locality (a1 b1 a2 b2 t : List Nat) (ht : t ≠ [])
    (ha1 : (123 : Nat) ∉ a1) (ha2 : (123 : Nat) ∉ a2) (htc : (125 : Nat) ∉ t) :
    hashSlot (a1 ++ 123 :: (t ++ 125 :: b1)) = hashSlot (a2 ++ 123 :: (t ++ 125 :: b2)) := by
  unfold hashSlot
  rw [extractHashTag_append a1 t b1 ht ha1 htc, extractHashTag_append a2 t b2 ht ha2 htc]

/-- C8 witness: two concrete keys sharing the tag consisting of the
single byte 97. -/
theorem C8_witness :
    hashSlot ([] ++ 123 :: ([97] ++ 125 :: [])) =
      hashSlot ([98] ++ 123 :: ([97] ++ 125 :: [99])) :=
  C8_hash_tag_locality [] [] [98] [99] [97] (by decide) (by decide) (by decide) (by decide)

/-- C9: the table-driven crc16 agrees with the bitwise CRC16-XMODEM
reference (polynomial 0x1021, initial value 0) on every byte string,
the canonical check vector 123456789 maps to 0x31C3, and hash_slot is
the checksum of the hash-tag portion reduced modulo 16384. -/
theorem C9_crc16_xmodem_agreement :
    (∀ data : List Nat, (∀ b ∈ data, b < 256) → crc16 data = crc16Ref data) ∧
    crc16 (strBytes "123456789") = 0x31C3 ∧
    (∀ key : List Nat, hashSlot key = crc16 (extractHashTag key) % 16384) := by
  refine ⟨?_, by decide, fun _ => rfl⟩
  intro data h
  unfold crc16 crc16Ref
  exact crc16_fold_eq data 0 (by norm_num) (by simpa using h)

/-- C9 witness: the agreement applied at the concrete check vector. -/
theorem C9_witness : crc16 (strBytes "123456789") = crc16Ref (strBytes "123456789") :=
  C9_crc16_xmodem_agreement.1 (strBytes "123456789") (by decide)

/-- C4: the parser is restartable.  For any byte stream split as
P1 ++ P2, parsing P1 yields Incomplete, or parsing the whole stream
returns exactly the same value and consumed-byte count as parsing P1:
appending further bytes never changes a non-Incomplete outcome. -/
theorem C4_parser_restartable (P1 P2 : List Nat) :
    parse P1 = .error .incomplete ∨ parse (P1 ++ P2) = parse P1 := by
  by_cases h : parse P1 = .error .incomplete
  · exact Or.inl h
  · right
    have h1 : parseAux (P1.length + 1) (P1 ++ P2) = parseAux (P1.length + 1) P1 :=
      parseAux_extend (P1.length + 1) (P1.length + 1) le_rfl P1 P2 h
    have h2 : parseAux ((P1 ++ P2).length + 1) (P1 ++ P2 ++ [])
        = parseAux (P1.length + 1) (P1 ++ P2) := by
      apply parseAux_extend (P1.length + 1) ((P1 ++ P2).length + 1)
        (by simp only [List.length_append]; omega) (P1 ++ P2) []
      rw [h1]
      exact h
    rw [List.append_nil] at h2
    show parseAux ((P1 ++ P2).length + 1) (P1 ++ P2) = parse P1
    rw [h2, h1]
    rfl

/-- C7 counterexample: the claim says negative counts are rejected
everywhere except the dollar-minus-one and star-minus-one sentinels; in
the code the dollar and star arms accept every negative length or
count, so dollar-minus-two and star-minus-two also yield the null host
value instead of an error. -/
theorem C7_negative_count_counterexample :
    parseToPython (strBytes "$-2\r\n") false = .ok (.pyNone, 5) ∧
    parseToPython (strBytes "*-2\r\n") false = .ok (.pyNone, 5) :=
  ⟨rfl, rfl⟩

/-- C7 amended: the fused parser rejects any container count above
16,777,216 with CountExceedsMax before doing per-element work (shown
for the star arm independently of what follows the header, and
end-to-end for the map, set, push and attribute arms), rejects nesting
deeper than 512 levels with DepthExceeded while a 512-deep input still
parses, and rejects big-number lines longer than 10,000 bytes with
BigNumberTooLong; negative counts at the dollar and star arms — any
negative value, not only minus one — yield the null host value, while
the map, set, push and attribute arms reject them with
NegativeElementCount and the bulk-error and verbatim arms with their
dedicated errors. -/
theorem C7_fused_parser_bounds :
    (∀ c : Int, maxRespElements < c.toNat →
      validatedCount c = .error (.protocol (.countExceedsMax c.toNat))) ∧
    (∀ tail : List Nat, parseToPython (strBytes "*16777217\r\n" ++ tail) false
      = .error (.protocol (.countExceedsMax 16777217))) ∧
    parseToPython (strBytes "%16777217\r\n$1\r\na\r\n") false
      = .error (.protocol (.countExceedsMax 16777217)) ∧
    parseToPython (strBytes "~16777217\r\n:1\r\n") false
      = .error (.protocol (.countExceedsMax 16777217)) ∧
    parseToPython (strBytes ">16777217\r\n:1\r\n") false
      = .error (.protocol (.countExceedsMax 16777217)) ∧
    parseToPython (strBytes "|16777217\r\n:1\r\n") false
      = .error (.protocol (.countExceedsMax 16777217)) ∧
    parseToPython (starChain 513) false = .error (.protocol .depthExceeded) ∧
    parseToPython (starChain 512 ++ strBytes ":1\r\n") false
      = .ok (nestedPy 512, 4 * 512 + 4) ∧
    (∀ l tail : List Nat, (13 : Nat) ∉ l → maxBigNumberLen < l.length →
      parseToPython (40 :: (l ++ 13 :: 10 :: tail)) false
        = .error (.protocol (.bigNumberTooLong l.length))) ∧
    parseToPython (strBytes "$-2\r\n") false = .ok (.pyNone, 5) ∧
    parseToPython (strBytes "*-5\r\n") false = .ok (.pyNone, 5) ∧
    parseToPython (strBytes "%-2\r\n") false = .error (.protocol .negativeElementCount) ∧
    parseToPython (strBytes "~-2\r\n") false = .error (.protocol .negativeElementCount) ∧
    parseToPython (strBytes ">-2\r\n") false = .error (.protocol .negativeElementCount) ∧
    parseToPython (strBytes "|-2\r\n") false = .error (.protocol .negativeElementCount) ∧
    parseToPython (strBytes "!-2\r\n") false = .error (.protocol .negativeBulkErrorLen) ∧
    parseToPython (strBytes "=-2\r\n") false = .error (.protocol .negativeVerbatimLen) := by
  refine ⟨?_, ?_, rfl, rfl, rfl, rfl, ?_, ?_, ?_,
    rfl, rfl, rfl, rfl, rfl, rfl, rfl, rfl⟩
  · intro c hc
    unfold validatedCount
    rw [if_neg (show ¬c < 0 from fun h => by
      rw [Int.toNat_of_nonpos h.le] at hc
      omega)]
    dsimp only
    rw [if_pos hc]
  · intro tail
    rw [show strBytes "*16777217\r\n" ++ tail
        = 42 :: ([49, 54, 55, 55, 55, 50, 49, 55] ++ 13 :: 10 :: tail) from rfl]
    rw [parseToPython_cons]
    unfold pInnerStep
    rw [if_neg (by decide : ¬maxParseDepth < 0)]
    dsimp only
    rw [if_neg (by decide), if_neg (by decide), if_neg (by decide), if_neg (by decide),
      if_pos rfl]
    rw [show fusedReadLine
        (42 :: ([49, 54, 55, 55, 55, 50, 49, 55] ++ 13 :: 10 :: tail)) 1
        = .ok ([49, 54, 55, 55, 55, 50, 49, 55],
            [49, 54, 55, 55, 55, 50, 49, 55].length + 3) from by
      unfold fusedReadLine
      rw [readLine_header 42 [49, 54, 55, 55, 55, 50, 49, 55] tail (by decide)]]
    dsimp only
    rw [show fusedParseInt [49, 54, 55, 55, 55, 50, 49, 55]
        = Except.ok (16777217 : Int) from rfl]
    dsimp only
    rw [if_neg (by decide : ¬(16777217 : Int) < 0)]
    rw [show validatedCount 16777217
        = .error (.protocol (.countExceedsMax 16777217)) from rfl]
  · unfold parseToPython
    rw [if_neg (by rw [show (starChain 513).isEmpty = false from rfl]; simp)]
    exact starChain_depth_error 513 _ 0 false (by decide)
      (by rw [starChain_length]; omega)
  · unfold parseToPython
    rw [if_neg (by
      rw [show (starChain 512 ++ strBytes ":1\r\n").isEmpty = false from rfl]
      simp)]
    exact starChain_ok 512 _ 0 false (by decide)
      (by rw [List.length_append, starChain_length]; omega)
  · intro l tail h13 hlen
    rw [parseToPython_cons]
    unfold pInnerStep
    rw [if_neg (by decide : ¬maxParseDepth < 0)]
    dsimp only
    rw [if_neg (by decide), if_neg (by decide), if_neg (by decide), if_neg (by decide),
      if_neg (by decide), if_neg (by decide), if_neg (by decide), if_neg (by decide),
      if_pos rfl]
    rw [show fusedReadLine (40 :: (l ++ 13 :: 10 :: tail)) 1
        = .ok (l, l.length + 3) from by
      unfold fusedReadLine
      rw [readLine_header 40 l tail h13]]
    dsimp only
    rw [if_pos hlen]

/-- C7 witness: the hypothesis-carrying conjuncts applied at concrete
inputs — a count just past the bound, a star header with trailing
bytes, and an oversize big-number line. -/
theorem C7_witness :
    validatedCount 16777218 = .error (.protocol (.countExceedsMax 16777218)) ∧
    parseToPython (strBytes "*16777217\r\nXYZ") false
      = .error (.protocol (.countExceedsMax 16777217)) ∧
    parseToPython (40 :: (List.replicate 10001 48 ++ 13 :: 10 :: [])) false
      = .error (.protocol (.bigNumberTooLong (List.replicate 10001 48).length)) :=
  ⟨C7_fused_parser_bounds.1 16777218 (by decide),
    C7_fused_parser_bounds.2.1 (strBytes "XYZ"),
    C7_fused_parser_bounds.2.2.2.2.2.2.2.2.1 (List.replicate 10001 48) []
      (fun hm => absurd (List.eq_of_mem_replicate hm) (by decide))
      (by rw [List.length_replicate]; decide)⟩

end Pyrsedis

